import Mathlib

/-!
# puyoai: board (CoreField) operations and move selection

A shallow embedding of `src/core/field/core_field.h`, `src/cpu/mayah/mayah_ai.cc`
and `src/cpu/peria/ai.cc`.

Memory model.  `CoreField` derives from `PlainField` (plain_field.h is missing)
and owns `byte heights_[MAP_WIDTH]`.  The cell array and
the height array are embedded as total functions on `Nat`; an index outside the
C++ arrays is undefined behaviour in the program and carries no meaning here.
The rows of a column are the rows `1..13`, the rows `recalcHeightOn` scans.
-/

namespace Puyo

/-- Modelled from the spec: `core/puyo_color.h` is missing.  A cell holds empty,
one of a small fixed set of colours, or a colourless obstacle (ojama). -/
inductive PuyoColor where
  | EMPTY
  | OJAMA
  | RED
  | BLUE
  | YELLOW
  | GREEN
  deriving DecidableEq, Repr, Inhabited

open PuyoColor

/-- The class `CoreField : PlainField`.  `field` is the cell array of
`PlainField` (read by `get`, written by `unsafeSet`), `heights` is
`byte heights_[MAP_WIDTH]`.  The operations below store a height between 0
and 13 or decrement a positive height, so a `byte` never wraps. -/
structure CoreField where
  field : Nat → Nat → PuyoColor
  heights : Nat → Nat

namespace CoreField

/-- Modelled from the spec: `PlainField::get(x, y)` (plain_field.h is missing) reads
the cell at column `x`, row `y`. -/
def get (f : CoreField) (x y : Nat) : PuyoColor := f.field x y

/-- Modelled from the spec: `PlainField::unsafeSet(x, y, c)` (plain_field.h is
missing) writes one cell and nothing else; the height cache is not touched. -/
def unsafeSet (f : CoreField) (x y : Nat) (c : PuyoColor) : CoreField :=
  { f with field := fun i j => if i = x ∧ j = y then c else f.field i j }

/-- `PuyoColor color(int x, int y) const { return get(x, y); }` -/
def color (f : CoreField) (x y : Nat) : PuyoColor := f.get x y

/-- `int height(int x) const { return heights_[x]; }` -/
def height (f : CoreField) (x : Nat) : Nat := f.heights x

/-- The assignment `heights_[x] = v`. -/
def setHeight (f : CoreField) (x v : Nat) : CoreField :=
  { f with heights := fun i => if i = x then v else f.heights i }

/-- One turn of the loop body of `recalcHeightOn`:
`if (color(x, y) != PuyoColor::EMPTY) heights_[x] = y;` -/
def recalcStep (x : Nat) (f : CoreField) (y : Nat) : CoreField :=
  if f.color x y ≠ EMPTY then f.setHeight x y else f

/-- `recalcHeightOn(x)`: `heights_[x] = 0; for (int y = 1; y <= 13; ++y) ...`. -/
def recalcHeightOn (f : CoreField) (x : Nat) : CoreField :=
  (List.range' 1 13).foldl (recalcStep x) (f.setHeight x 0)

/-- `removeTopPuyoFrom(x)`:
`if (height(x) > 0) unsafeSet(x, heights_[x]--, PuyoColor::EMPTY);`
The post-decrement hands the old height to `unsafeSet` and stores the old
height minus one. -/
def removeTopPuyoFrom (f : CoreField) (x : Nat) : CoreField :=
  if f.height x > 0 then
    (f.unsafeSet x (f.heights x) EMPTY).setHeight x (f.heights x - 1)
  else f

/-- `setPuyoAndHeight(x, y, c)`: `unsafeSet(x, y, c); recalcHeightOn(x);` -/
def setPuyoAndHeight (f : CoreField) (x y : Nat) (c : PuyoColor) : CoreField :=
  (f.unsafeSet x y c).recalcHeightOn x

/-- The number `h` is the index of the topmost occupied cell of column `x`
(rows `1..13`), and `0` when the column has no occupied cell. -/
def IsTopmostOccupied (f : CoreField) (x h : Nat) : Prop :=
  h ≤ 13 ∧ (h = 0 ∨ f.color x h ≠ EMPTY) ∧
    ∀ y, h < y → y ≤ 13 → f.color x y = EMPTY

/-- Column `x` is gravity-consistent with `h` cells: rows `1..h` are occupied and
every row above `h` is empty. -/
def GravityConsistent (f : CoreField) (x h : Nat) : Prop :=
  (∀ y, 1 ≤ y → y ≤ h → f.color x y ≠ EMPTY) ∧
    ∀ y, h < y → y ≤ 13 → f.color x y = EMPTY

/-- The empty board with an all-zero height cache (`CoreField()`). -/
def emptyField : CoreField := { field := fun _ _ => EMPTY, heights := fun _ => 0 }

/-- A board after direct writes: column 2 holds RED in row 1 and GREEN in row 3
(row 2 is a gap) and its height cache is still 0. -/
def staleField : CoreField :=
  (emptyField.unsafeSet 2 1 RED).unsafeSet 2 3 GREEN

/-- A board whose column 3 holds RED, BLUE in rows 1, 2, with height cache 2. -/
def stackField : CoreField :=
  (((emptyField.unsafeSet 3 1 RED).unsafeSet 3 2 BLUE).setHeight 3 2)

end CoreField

/-! ## Plans and move selection (`cpu/mayah/mayah_ai.cc`, `cpu/peria/ai.cc`) -/

/-- Modelled from the spec: `core/decision.h` is missing.  A decision is a target
column and one of four orientations. -/
structure Decision where
  x : Nat
  r : Nat
  deriving DecidableEq, Repr

/-- Modelled from the spec: the column the axis cell lands in (`Decision::axisX`,
`core/decision.h` is missing). -/
def Decision.axisX (d : Decision) : Nat := d.x

/-- Modelled from the spec: the column the child cell lands in (`Decision::childX`,
`core/decision.h` is missing).  The orientations are child above (0), right (1),
below (2) and left (3) of the axis. -/
def Decision.childX (d : Decision) : Nat :=
  if d.r = 1 then d.x + 1 else if d.r = 3 then d.x - 1 else d.x

/-- Modelled from the spec: a piece pair (`Kumipuyo`, `core/kumipuyo.h` is
missing): an axis cell and a child cell. -/
structure Kumipuyo where
  axis : PuyoColor
  child : PuyoColor
  deriving DecidableEq, Repr

namespace CoreField

/-- Modelled from the spec: the push of the column stack ("push/pop semantics
respecting gravity-consistency"; core_field.cc is missing): the cell above the
cached height receives `c` and the cached height grows by one.
`removeTopPuyoFrom` is the pop. -/
def pushPuyo (f : CoreField) (x : Nat) (c : PuyoColor) : CoreField :=
  (f.unsafeSet x (f.height x + 1) c).setHeight x (f.height x + 1)

/-- Modelled from the spec: the number of cells ("1 or 2") a placement adds to
column `x`: one for the axis and one for the child when they land there. -/
def cellsAdded (d : Decision) (x : Nat) : Nat :=
  (if d.axisX = x then 1 else 0) + (if d.childX = x then 1 else 0)

/-- Modelled from the spec: the placement has room: in neither landing column
"the target column's height would exceed the grid height after adding 1 or 2
cells"; the grid height is the top row 13. -/
def hasRoom (f : CoreField) (d : Decision) : Bool :=
  decide (f.height d.axisX + cellsAdded d d.axisX ≤ 13) &&
    decide (f.height d.childX + cellsAdded d d.childX ≤ 13)

/-- Modelled from the spec: `CoreField::dropKumipuyo(decision, kumipuyo)`
(core_field.cc is missing), the spec's `placePiecePair`: it "fails (without
mutating state) if the target column's height would exceed the grid height
after adding 1 or 2 cells; on success writes the axis and child cells honoring
orientation, updates height caches".  The lower cell is pushed first: the child
when it lies below the axis, the axis otherwise.  The result pairs the
`bool` returned with the board the call leaves behind. -/
def dropKumipuyo (f : CoreField) (d : Decision) (k : Kumipuyo) : Bool × CoreField :=
  if f.hasRoom d then
    (true,
      if d.r = 2 then (f.pushPuyo d.childX k.child).pushPuyo d.axisX k.axis
      else (f.pushPuyo d.axisX k.axis).pushPuyo d.childX k.child)
  else
    (false, f)

/-- A board whose column 3 is filled to row 12 with RED, cache 12, row 13 empty. -/
def fullField : CoreField :=
  { field := fun i j => if i = 3 ∧ 1 ≤ j ∧ j ≤ 12 then RED else EMPTY,
    heights := fun i => if i = 3 then 12 else 0 }

/-- The cells of column `x` in the rows `1..13`, bottom first. -/
def column (f : CoreField) (x : Nat) : List PuyoColor :=
  (List.range' 1 13).map (fun y => f.color x y)

/-- The occupied cells of column `x`, bottom first. -/
def compacted (f : CoreField) (x : Nat) : List PuyoColor :=
  (f.column x).filter (fun c => decide (c ≠ EMPTY))

/-- The number of occupied cells of column `x` (rows `1..13`). -/
def occupiedCount (f : CoreField) (x : Nat) : Nat :=
  (f.column x).countP (fun c => decide (c ≠ EMPTY))

/-- Modelled from the spec: the work of `forceDrop` on one column (core_field.cc is
missing): "compacts occupied cells downward in that column and recomputes its
height".  The occupied cells of rows `1..13` are written to the rows
`1, 2, ...` in their order, the rows above them become empty, and the cached
height becomes the number of occupied cells.  The spec names the columns with
"empty cells beneath an occupied cell"; on any other column the compaction
leaves every cell in place, and the height is recomputed all the same: the
drop step is what restores the heights ("must be restored by an explicit drop
step before any further read of heights"), also after the resolver has removed
the top cells of a column. -/
def forceDropColumn (f : CoreField) (x : Nat) : CoreField :=
  { field := fun i j =>
      if i = x ∧ 1 ≤ j ∧ j ≤ 13 then (f.compacted x).getD (j - 1) EMPTY else f.field i j,
    heights := fun i => if i = x then (f.compacted x).length else f.heights i }

/-- Modelled from the spec: `CoreField::forceDrop()`, the spec's `dropAllFloating`
(core_field.cc is missing; the header says "Drops all puyos if some puyos are
in the air"): the work above "for every column", columns 1 to 6. -/
def forceDrop (f : CoreField) : CoreField :=
  (List.range' 1 6).foldl forceDropColumn f

/-- A board with floating cells: column 2 holds RED in row 2 and BLUE in row 5,
the cache says 0. -/
def floatingField : CoreField :=
  (emptyField.unsafeSet 2 2 RED).unsafeSet 2 5 BLUE

end CoreField

/-! ## Text snapshots (`CoreField(const std::string&)`, `toString`) -/

/-- Modelled from the spec: the character of a cell ("one character per cell";
`core/puyo_color.h` is missing).  The colours and the empty cell use the
characters of the fixtures in the sources, the obstacle is written `O`. -/
def toChar : PuyoColor → Char
  | EMPTY => ' '
  | OJAMA => 'O'
  | RED => 'R'
  | BLUE => 'B'
  | YELLOW => 'Y'
  | GREEN => 'G'

/-- Modelled from the spec: the cell of a character; an unknown character has
none. -/
def toPuyoColor (c : Char) : Option PuyoColor :=
  if c = ' ' then some EMPTY
  else if c = 'O' then some OJAMA
  else if c = 'R' then some RED
  else if c = 'B' then some BLUE
  else if c = 'Y' then some YELLOW
  else if c = 'G' then some GREEN
  else none

namespace CoreField

/-- Modelled from the spec: a well-formed snapshot, a text in the "canonical
textual form (rows top-to-bottom, one character per cell)": rows of 6
characters, at most the 13 rows of the grid, every character the character of
a cell, and the text starts at the topmost row that holds a cell: it is empty
or its first row has a character other than the blank.  (A text with blank
rows on top describes the same cells as the text without them, so the two
cannot both be the canonical text of the board.) -/
def WellFormedSnapshot (s : String) : Prop :=
  s.length % 6 = 0 ∧ s.length ≤ 78 ∧ (∀ c ∈ s.data, (toPuyoColor c).isSome = true) ∧
    (s.length = 0 ∨ ∃ c ∈ s.data.take 6, c ≠ ' ')

/-- Modelled from the spec: the cells a snapshot describes: top row first, so the
last row of the text is row 1; rows the text does not reach are empty. -/
def snapshotCell (s : String) (i j : Nat) : PuyoColor :=
  if 1 ≤ i ∧ i ≤ 6 ∧ 1 ≤ j ∧ j ≤ s.length / 6 then
    (toPuyoColor (s.data.getD ((s.length / 6 - j) * 6 + (i - 1)) ' ')).getD EMPTY
  else EMPTY

/-- Modelled from the spec: `CoreField(const std::string&)` (core_field.cc is
missing): the board of a textual grid, "one character per cell, top row
first", with the height of every column computed; malformed text (wrong
length, unknown character) is a construction error, here `none`. -/
def fromString (s : String) : Option CoreField :=
  if s.length % 6 = 0 ∧ s.length ≤ 78 ∧ s.data.all (fun c => (toPuyoColor c).isSome) then
    some ((List.range' 1 6).foldl recalcHeightOn
      { field := snapshotCell s, heights := fun _ => 0 })
  else none

/-- The topmost row of the board that holds a cell, 0 on a board without cells:
the greatest of the column heights as `recalcHeightOn` computes them from the
cells. -/
def topRow (f : CoreField) : Nat :=
  (List.range' 1 6).foldl (fun m x => max m ((f.recalcHeightOn x).height x)) 0

/-- Modelled from the spec: `CoreField::toString()` (core_field.cc is missing):
the canonical text of the board, "rows top-to-bottom, one character per
cell": the rows from the topmost row that holds a cell down to row 1, each
from column 1 to column 6; the number of rows written is that of the fixtures
in the sources, which stop at the topmost cell (`fulfilledField()` has 10
rows). -/
def toString (f : CoreField) : String :=
  String.mk ((List.range (6 * f.topRow)).map
    (fun k => toChar (f.color (k % 6 + 1) (f.topRow - k / 6))))

/-- The 10-row text of `fulfilledField()` in `mayah_ai_performance_test.cc`. -/
def fulfilledFieldText : String :=
  "G   YGR   YYGRGYRGRGYRGGGRGYRYGRGYRYGYRGYRRGYRGYRGYRGYRGYRGY"

/-- The text of `fulfilledField()` with one blank row on top: 11 rows. -/
def fulfilledFieldBlankRowText : String :=
  "      G   YGR   YYGRGYRGRGYRGGGRGYRYGRGYRYGYRGYRRGYRGYRGYRGYRGYRGY"

end CoreField

/-! ## Chain resolution (`CoreField::simulate`) -/

/-- Modelled from the spec: the fixed lookup tables and durations of the chain
resolver (the score and frame constants are missing), taken as parameters: the chain-power table with its greatest index, the colour-count
bonus table, the group-size bonus table, the duration of the vanish animation
and the drop duration per row fallen. -/
structure ScoreTables where
  chainBonus : Nat → Nat
  chainBonusMaxIndex : Nat
  colorBonus : Nat → Nat
  longBonus : Nat → Nat
  framesVanish : Nat
  framesDropPerRow : Nat

/-- Modelled from the spec: the chain outcome returned by `simulate`
(`BasicRensaResult`, rensa_result.h is missing): number of links, total score,
frames consumed. -/
structure BasicRensaResult where
  chains : Nat
  score : Nat
  frames : Nat
  deriving DecidableEq, Repr

/-- Modelled from the spec: a cell holds one of the colours (it is neither empty
nor an obstacle); `core/puyo_color.h` is missing. -/
def isNormalColor (c : PuyoColor) : Bool :=
  match c with
  | RED => true
  | BLUE => true
  | YELLOW => true
  | GREEN => true
  | _ => false

namespace CoreField

/-- Modelled from the spec: the cells of the grid the resolver scans: columns 1..6,
rows 1..13, column by column. -/
def allPositions : List (Nat × Nat) :=
  (List.range' 1 6).flatMap (fun x => (List.range' 1 13).map (fun y => (x, y)))

/-- Modelled from the spec: the four neighbours of a cell ("4-directional
adjacency").  A neighbour outside the grid is never a grid cell and is ignored
by every user. -/
def neighbours (p : Nat × Nat) : List (Nat × Nat) :=
  [(p.1 + 1, p.2), (p.1 - 1, p.2), (p.1, p.2 + 1), (p.1, p.2 - 1)]

/-- Modelled from the spec: one round of the flood fill: the grid cells of colour
`c` that are in `s` or next to a cell of `s`. -/
def expand (f : CoreField) (c : PuyoColor) (s : List (Nat × Nat)) : List (Nat × Nat) :=
  allPositions.filter (fun p =>
    decide (f.color p.1 p.2 = c) && (s.contains p || s.any (fun q => (neighbours q).contains p)))

/-- Modelled from the spec: the connected same-colour group of `(x, y)`: the cells
reachable from it by 4-directional adjacency through cells of the same colour.
78 rounds of the flood fill reach every cell of the 6 x 13 grid. -/
def connectedGroup (f : CoreField) (x y : Nat) : List (Nat × Nat) :=
  (expand f (f.color x y))^[78] [(x, y)]

/-- Modelled from the spec: `connectedPuyoNums(x, y)`, the spec's `connectedSize`
(core_field.cc is missing): the count of same-colour cells reachable from
`(x, y)`; meaningful only when `(x, y)` holds a colour. -/
def connectedPuyoNums (f : CoreField) (x y : Nat) : Nat :=
  (f.connectedGroup x y).length

/-- Modelled from the spec: step 2 of the resolver, the coloured cells marked for
removal: those whose connected group has size at least 4. -/
def vanishingColored (f : CoreField) : List (Nat × Nat) :=
  allPositions.filter (fun p =>
    isNormalColor (f.color p.1 p.2) && decide (4 ≤ f.connectedPuyoNums p.1 p.2))

/-- Modelled from the spec: step 2 of the resolver, the obstacle cells marked for
removal: those adjacent to a vanishing coloured cell. -/
def vanishingOjama (f : CoreField) : List (Nat × Nat) :=
  allPositions.filter (fun p =>
    decide (f.color p.1 p.2 = OJAMA) &&
      (neighbours p).any (fun q => (f.vanishingColored).contains q))

/-- Modelled from the spec: step 4 of the resolver, the removal: every marked cell
is set to empty. -/
def eraseMarked (f : CoreField) (marked : List (Nat × Nat)) : CoreField :=
  { f with field := fun i j => if marked.contains (i, j) then EMPTY else f.field i j }

/-- Modelled from the spec: the sizes of the groups that vanish together, one
entry per group (taken at the first cell of each group in grid order). -/
def vanishingGroupSizes (f : CoreField) : List Nat :=
  ((f.vanishingColored).filter (fun p =>
      (f.connectedGroup p.1 p.2).head? == some p)).map
    (fun p => f.connectedPuyoNums p.1 p.2)

/-- Modelled from the spec: the number of distinct colours vanished in the link. -/
def vanishingColorCount (f : CoreField) : Nat :=
  ((f.vanishingColored).map (fun p => f.color p.1 p.2)).dedup.length

/-- Modelled from the spec: step 4 of the resolver, the bonus: chain-power entry of the link index
(saturating at the greatest table index) plus colour-count bonus plus the
group-size bonus of every vanishing group, at least 1. -/
def clearBonus (T : ScoreTables) (f : CoreField) (linkIndex : Nat) : Nat :=
  max 1 (T.chainBonus (min linkIndex T.chainBonusMaxIndex) +
         T.colorBonus f.vanishingColorCount +
         (f.vanishingGroupSizes.map T.longBonus).sum)

/-- Modelled from the spec: step 4 of the resolver, the link score:
`10 × groupPuyoCount × clearBonus(linkIndex, colorCount, groupSizes)`. -/
def linkScore (T : ScoreTables) (f : CoreField) (linkIndex : Nat) : Nat :=
  10 * (f.vanishingColored).length * clearBonus T f linkIndex

/-- Modelled from the spec: how far the cell `(x, y)` falls: the number of empty
cells beneath it. -/
def emptyBelow (f : CoreField) (p : Nat × Nat) : Nat :=
  ((List.range' 1 (p.2 - 1)).filter (fun j => decide (f.color p.1 j = EMPTY))).length

/-- Modelled from the spec: "how far cells above fall" in the drop that follows a
removal: the greatest number of empty cells beneath an occupied cell. -/
def maxDrop (f : CoreField) : Nat :=
  allPositions.foldl
    (fun m p => if f.color p.1 p.2 ≠ EMPTY then max m (f.emptyBelow p) else m) 0

/-- Modelled from the spec: steps 2 to 6 of the Chain Resolver (core_field.cc is
missing).  `chains` counts the links so far; the next link has index
`chains + 1`.  When the scan marks nothing the outcome and the board are
returned; otherwise the marked cells are removed, the link is scored and timed,
the floating cells are dropped and the scan is repeated.  `fuel` bounds the
number of links; every link removes at least four of the 78 cells. -/
def simulateLoop (T : ScoreTables) : Nat → CoreField → BasicRensaResult →
    Option (BasicRensaResult × CoreField)
  | 0, _, _ => none
  | fuel + 1, f, r =>
    if f.vanishingColored = [] then some (r, f)
    else
      let g := f.eraseMarked (f.vanishingColored ++ f.vanishingOjama)
      simulateLoop T fuel g.forceDrop
        { chains := r.chains + 1,
          score := r.score + linkScore T f (r.chains + 1),
          frames := r.frames + T.framesVanish + T.framesDropPerRow * g.maxDrop }

/-- Modelled from the spec: `CoreField::simulate(initialChain)` (core_field.cc is
missing), the Chain Resolver: step 1 drops all floating cells, then the links
are resolved.  A chain continued at link `initialChain` has `initialChain - 1`
links so far.  The result pairs the outcome with the board the call leaves
behind. -/
def simulate (T : ScoreTables) (f : CoreField) (initialChain : Nat) :
    Option (BasicRensaResult × CoreField) :=
  simulateLoop T 20 f.forceDrop { chains := initialChain - 1, score := 0, frames := 0 }

/-- A board in a gravity-consistent state: in every column 1..6 the occupied
cells are contiguous from the bottom with no gaps, and the height cache, which
"must always equal the index of the topmost occupied cell in that column when
the Board is in a gravity-consistent state", is the number of those cells. -/
def GravityConsistentBoard (f : CoreField) : Prop :=
  ∀ x, 1 ≤ x → x ≤ 6 → f.height x ≤ 13 ∧ GravityConsistent f x (f.height x)

/-- No connected same-colour group of size 4 or more anywhere on the grid. -/
def NoVanishingGroup (f : CoreField) : Prop :=
  ∀ x y, 1 ≤ x → x ≤ 6 → 1 ≤ y → y ≤ 13 → isNormalColor (f.color x y) = true →
    f.connectedPuyoNums x y < 4

/-- Score tables for the examples (chain-power 0, 8, 16, 32 ...; no other
bonus). -/
def sampleTables : ScoreTables :=
  { chainBonus := fun n => if n ≤ 1 then 0 else 8 * 2 ^ (n - 2),
    chainBonusMaxIndex := 19,
    colorBonus := fun _ => 0,
    longBonus := fun _ => 0,
    framesVanish := 25,
    framesDropPerRow := 5 }

/-- A settled board: RED, RED, RED on the floor of columns 1..3 and BLUE on top
of column 1; no group of four. -/
def settledField : CoreField :=
  { field := fun i j =>
      if j = 1 ∧ (i = 1 ∨ i = 2 ∨ i = 3) then RED
      else if i = 1 ∧ j = 2 then BLUE else EMPTY,
    heights := fun i => if i = 1 then 2 else if i = 2 ∨ i = 3 then 1 else 0 }

/-- A board with four RED cells on the floor of columns 1..4 and a BLUE cell on
top of column 1. -/
def fourField : CoreField :=
  { field := fun i j =>
      if j = 1 ∧ (i = 1 ∨ i = 2 ∨ i = 3 ∨ i = 4) then RED
      else if i = 1 ∧ j = 2 then BLUE else EMPTY,
    heights := fun i => if i = 1 then 2 else if i = 2 ∨ i = 3 ∨ i = 4 then 1 else 0 }

end CoreField

/-- Modelled from the spec: `core/field/rensa_result.h` is missing.  The chain
outcome: number of links, total score, frames and the quick flag (the members
`chains`, `score`, `frames`, `quick` read in `ai.cc` and `mayah_ai.cc`). -/
structure RensaResult where
  chains : Int
  score : Int
  frames : Int
  quick : Bool
  deriving DecidableEq, Repr

/-- Modelled from the spec: `core/algorithm/plan.h` is missing.  A plan holds the
resulting board, the decisions applied so far, the chain outcome and the frame
and chigiri bookkeeping (the six constructor arguments of `RefPlan` in
`MayahAI::makeMessageFrom`). -/
structure Plan where
  field : CoreField
  decisions : List Decision
  rensaResult : RensaResult
  numChigiri : Int
  initiatingFrames : Int
  lastDropFrames : Int

/-- Modelled from the spec: the read-only view of a plan handed to the visitor
(`RefPlan`, `core/algorithm/plan.h` is missing); same content as `Plan`. -/
structure RefPlan where
  field : CoreField
  decisions : List Decision
  rensaResult : RensaResult
  numChigiri : Int
  initiatingFrames : Int
  lastDropFrames : Int

namespace RefPlan

/-- `RefPlan::toPlan()`: the owned copy of the view. -/
def toPlan (p : RefPlan) : Plan :=
  { field := p.field, decisions := p.decisions, rensaResult := p.rensaResult,
    numChigiri := p.numChigiri, initiatingFrames := p.initiatingFrames,
    lastDropFrames := p.lastDropFrames }

/-- `RefPlan::score()`: the score of the plan's chain outcome. -/
def score (p : RefPlan) : Int := p.rensaResult.score

/-- `RefPlan::chains()`: the number of links of the plan's chain outcome. -/
def chains (p : RefPlan) : Int := p.rensaResult.chains

/-- Modelled from the spec: `RefPlan::isRensaPlan()`; the plan carries a chain
outcome, that is, its decisions triggered vanishing. -/
def isRensaPlan (p : RefPlan) : Bool := decide (0 < p.rensaResult.chains)

/-- `plan.decisions().front()`.  On an empty vector the C++ call is undefined;
the enumerator only yields plans with at least one decision, and `d0` stands in
for the undefined case. -/
def front (p : RefPlan) (d0 : Decision) : Decision := p.decisions.headD d0

end RefPlan

/-- Modelled from the spec: the default-constructed `Plan` (`Plan bestPlan;`).  It
holds no decision: `MayahAI::think` recognises it by `plan.decisions().empty()`. -/
def Plan.default : Plan :=
  { field := CoreField.emptyField, decisions := [], rensaResult := ⟨0, 0, 0, false⟩,
    numChigiri := 0, initiatingFrames := 0, lastDropFrames := 0 }

/-- A visited plan with the single decision `(x, 0)` and a chain outcome of
`chains` links and score `score`. -/
def RefPlan.sample (x : Nat) (chains score : Int) : RefPlan :=
  { field := CoreField.emptyField, decisions := [⟨x, 0⟩],
    rensaResult := ⟨chains, score, 0, false⟩,
    numChigiri := 0, initiatingFrames := 0, lastDropFrames := 0 }

/-- The best-so-far fold shared by the visitors: the running key and payload are
replaced exactly when the key of the visited element is strictly greater. -/
def bestFold {α K β : Type} [LT K] [DecidableRel (fun a b : K => a < b)]
    (key : α → K) (val : α → β) : K × β → List α → K × β
  | s, [] => s
  | s, a :: l => bestFold key val (if s.1 < key a then (key a, val a) else s) l

/-- The value `max(0, max of the list)`: the greatest entry, and 0 when no entry
is above 0. -/
def maxOr0 (l : List Int) : Int := l.foldl max 0

namespace MayahAI

/-- Modelled from the spec: `EvalResult` (`cpu/mayah/evaluator.h` is missing): the
two values `thinkPlan` reads.  `score()` is a `double`; a finite double is a
rational number and only its order is used. -/
structure EvalResult where
  score : ℚ
  maxVirtualScore : Int

/-- The variables captured by the visitor of `thinkPlan`, with the two
statistics members of `MayahAI`. -/
structure ThinkState where
  bestRensaScore : Int
  bestVirtualRensaScore : Int
  bestRensaPlan : Plan
  bestScore : ℚ
  bestPlan : Plan
  thoughtMaxScore : Int
  thoughtMaxRensa : Int

/-- The visitor `f` of `thinkPlan` (the lambda of lines 95-113); `eval` is
`Evaluator(...).eval(plan, field, frameId, maxIteration, gazer_)`. -/
def visit (eval : RefPlan → EvalResult) (s : ThinkState) (plan : RefPlan) : ThinkState :=
  let evalResult := eval plan
  let s1 : ThinkState :=
    if s.bestScore < evalResult.score then
      { s with bestScore := evalResult.score, bestPlan := plan.toPlan }
    else s
  let s2 : ThinkState :=
    if s1.bestVirtualRensaScore < evalResult.maxVirtualScore then
      { s1 with bestVirtualRensaScore := evalResult.maxVirtualScore }
    else s1
  let s3 : ThinkState :=
    if s2.bestRensaScore < plan.score then
      { s2 with bestRensaScore := plan.score, bestRensaPlan := plan.toPlan }
    else s2
  { s3 with thoughtMaxScore := max s3.thoughtMaxScore plan.score,
            thoughtMaxRensa := max s3.thoughtMaxRensa plan.chains }

/-- The locals of `thinkPlan` before the enumeration starts; `thoughtMaxScore`
and `thoughtMaxRensa` are the values the two members hold when `thinkPlan` is
called. -/
def initState (thoughtMaxScore thoughtMaxRensa : Int) : ThinkState :=
  { bestRensaScore := 0, bestVirtualRensaScore := 0, bestRensaPlan := Plan.default,
    bestScore := -100000000, bestPlan := Plan.default,
    thoughtMaxScore := thoughtMaxScore, thoughtMaxRensa := thoughtMaxRensa }

/-- The state after `Plan::iterateAvailablePlans(field, kumipuyoSeq, depth, f)`;
`visited` is the sequence of plans the enumerator (plan.h, missing) hands to `f`. -/
def thinkState (eval : RefPlan → EvalResult) (thoughtMaxScore thoughtMaxRensa : Int)
    (visited : List RefPlan) : ThinkState :=
  visited.foldl (visit eval) (initState thoughtMaxScore thoughtMaxRensa)

/-- `MayahAI::thinkPlan`: the plan returned after the enumeration. -/
def thinkPlan (eval : RefPlan → EvalResult) (thoughtMaxScore thoughtMaxRensa : Int)
    (visited : List RefPlan) : Plan :=
  let s := thinkState eval thoughtMaxScore thoughtMaxRensa visited
  if s.bestVirtualRensaScore < s.bestRensaScore then s.bestRensaPlan else s.bestPlan

/-- An evaluator for the sample plans: the plan in column 1 is valued 10, every
other plan 5; no virtual chain is seen. -/
def sampleEval (p : RefPlan) : EvalResult :=
  if p.decisions = [⟨1, 0⟩] then ⟨10, 0⟩ else ⟨5, 0⟩

/-- An evaluator that values every plan below the initial `bestScore`. -/
def lowEval (_p : RefPlan) : EvalResult := ⟨-200000000, 0⟩

end MayahAI

namespace Peria

/-- `EvaluateFuture(plan, best_score)`: keeps the greatest chain score seen. -/
def EvaluateFuture (best_score : Int) (plan : RefPlan) : Int :=
  if plan.rensaResult.score > best_score then plan.rensaResult.score else best_score

/-- The local `score` of `EvaluateUsual` just before the final comparison.
`future` is `Plan::iterateAvailablePlans(plan.field(), KumipuyoSeq(), 1, ·)`, the
plans the enumerator (plan.h, missing) yields from a board; `/` on `int`
truncates toward zero. -/
def usualScore (future : CoreField → List RefPlan) (plan : RefPlan) : Int :=
  if plan.isRensaPlan then
    if plan.rensaResult.chains = 1 ∧ plan.rensaResult.quick = true ∧
        plan.rensaResult.score > 70 * 6 * 2 then
      99999
    else
      plan.rensaResult.score
  else
    Int.tdiv ((future plan.field).foldl EvaluateFuture 0) 2

/-- `EvaluateUsual(plan, best_score, decision)` on the pair
`(*best_score, *decision)`. -/
def EvaluateUsual (future : CoreField → List RefPlan) (d0 : Decision)
    (s : Int × Decision) (plan : RefPlan) : Int × Decision :=
  if usualScore future plan > s.1 then (usualScore future plan, plan.front d0) else s

/-- The default search of `Ai::think` (lines 179-188): `int score = 0;
Decision decision;`, one call of `EvaluateUsual` per visited plan, and the
decision returned with the message "Normal".  `d0` is the default-constructed
`Decision` (decision.h is missing), `visited` the plans enumerated at depth 2. -/
def thinkNormal (future : CoreField → List RefPlan) (d0 : Decision)
    (visited : List RefPlan) : Decision :=
  (visited.foldl (EvaluateUsual future d0) (0, d0)).2

/-- The greatest chain score among the plans of a list, and 0 when the list has
no plan. -/
def greatestChainScore : List RefPlan → Int
  | [] => 0
  | q :: qs => qs.foldl (fun m r => max m r.rensaResult.score) q.rensaResult.score

/-- Modelled from the spec: `RefPlan::framesToInitiate()` (`core/algorithm/plan.h`
is missing): the frames that elapse before the plan's chain is initiated, the
`initiatingFrames` of the plan. -/
def framesToInitiate (p : RefPlan) : Int := p.initiatingFrames

/-- `plan.decision(n)`: the n-th decision of the plan.  Past the end of the
vector the C++ call is undefined; `d0` stands in for the undefined case. -/
def decision (p : RefPlan) (n : Nat) (d0 : Decision) : Decision := p.decisions.getD n d0

/-- `EvaluateCounter(plan, threshold, frame, score, decision)` on the pair
`(*score, *decision)`: the four early returns, then the two assignments. -/
def EvaluateCounter (threshold frame : Int) (d0 : Decision)
    (s : Int × Decision) (plan : RefPlan) : Int × Decision :=
  if plan.isRensaPlan = false then s
  else if framesToInitiate plan < frame then s
  else if plan.score < threshold then s
  else if s.1 > 0 ∧ s.1 ≤ plan.score then s
  else (plan.score, decision plan 0 d0)

/-- A plan is eligible for the counter: it is a rensa plan,
`framesToInitiate() >= frame` and `score() >= threshold`. -/
def eligible (threshold frame : Int) (p : RefPlan) : Prop :=
  p.isRensaPlan = true ∧ frame ≤ framesToInitiate p ∧ threshold ≤ p.score

/-- The counter search of `Ai::think` (lines 167-174): `int score = 0;
Decision decision;` and one call of `EvaluateCounter` per visited plan. -/
def counterSearch (threshold frame : Int) (d0 : Decision) (visited : List RefPlan) :
    Int × Decision :=
  visited.foldl (EvaluateCounter threshold frame d0) (0, d0)

/-- Modelled from the spec: a template (`Pattern`, `cpu/peria/pattern.h` is
missing): what `PatternMatch` reads of it, `Match(field)`, `name()` and
`score()`. -/
structure Pattern where
  Match : CoreField → Int
  name : String
  score : Int

/-- The locals `sum`, `best` and the stream `oss` of `PatternMatch`. -/
structure MatchState where
  sum : Int
  best : Int
  oss : String

/-- One turn of the loop of `PatternMatch`: `sum += score;` and, when
`score > best`, `best = score` and the pattern is appended to the stream. -/
def matchStep (field : CoreField) (s : MatchState) (pattern : Pattern) : MatchState :=
  let score := pattern.Match field
  if score > s.best then
    { sum := s.sum + score, best := score,
      oss := s.oss ++ " " ++ pattern.name ++ " " ++ toString score ++ "/" ++
        toString pattern.score }
  else
    { s with sum := s.sum + score }

/-- `PatternMatch(plan, name)`: the sum of the match scores of all patterns on
the plan's board, paired with the text written to `*name`.  `patterns` is
`Pattern::GetAllPattern()` (pattern.h is missing). -/
def PatternMatch (patterns : List Pattern) (plan : RefPlan) : Int × String :=
  let r := patterns.foldl (matchStep plan.field) { sum := 0, best := 0, oss := "" }
  (r.sum, r.oss)

/-- The four outputs of `EvaluatePatterns`: `*best_score`, `*best_name`,
`*frames`, `*decision`. -/
structure PatternState where
  best_score : Int
  best_name : String
  frames : Int
  decision : Decision
  deriving DecidableEq

/-- `EvaluatePatterns(plan, best_score, best_name, frames, decision)`. -/
def EvaluatePatterns (patterns : List Pattern) (d0 : Decision)
    (s : PatternState) (plan : RefPlan) : PatternState :=
  if plan.isRensaPlan then s
  else
    let score := (PatternMatch patterns plan).1
    if score > s.best_score ∨ (score = s.best_score ∧ plan.rensaResult.frames < s.frames) then
      { best_score := score, best_name := (PatternMatch patterns plan).2,
        frames := plan.rensaResult.frames, decision := decision plan 0 d0 }
    else s

/-- The template search of `Ai::think` (lines 149-156): `int score = 0;
std::string name; int frames = 1e+8; Decision temp_decision;` and one call of
`EvaluatePatterns` per visited plan. -/
def patternSearch (patterns : List Pattern) (d0 : Decision) (visited : List RefPlan) :
    PatternState :=
  visited.foldl (EvaluatePatterns patterns d0)
    { best_score := 0, best_name := "", frames := 100000000, decision := d0 }

/-- The test of `EvaluatePatterns`:
`score > *best_score || (score == *best_score && plan.rensaResult().frames < *frames)`. -/
def improves (patterns : List Pattern) (s : PatternState) (plan : RefPlan) : Prop :=
  (PatternMatch patterns plan).1 > s.best_score ∨
    ((PatternMatch patterns plan).1 = s.best_score ∧ plan.rensaResult.frames < s.frames)

/-- The four outputs as `EvaluatePatterns` assigns them from a plan. -/
def outputsOf (patterns : List Pattern) (d0 : Decision) (plan : RefPlan) : PatternState :=
  { best_score := (PatternMatch patterns plan).1, best_name := (PatternMatch patterns plan).2,
    frames := plan.rensaResult.frames, decision := decision plan 0 d0 }

/-- A visited plan with the single decision `(x, 0)`, a chain outcome of
`chains` links, score `score` and `frames` frames, initiated after
`initiating` frames. -/
def samplePlan (x : Nat) (chains score frames initiating : Int) : RefPlan :=
  { field := CoreField.emptyField, decisions := [⟨x, 0⟩],
    rensaResult := ⟨chains, score, frames, false⟩,
    numChigiri := 0, initiatingFrames := initiating, lastDropFrames := 0 }

/-- Plans for the counter examples, with threshold 200 and frame 10 in mind: a
chainless plan, a plan of score 120, a plan of score 400 initiated after 5
frames, then plans of scores 500, 300 and 300 initiated late enough. -/
def counterPlans : List RefPlan :=
  [samplePlan 1 0 40 0 20, samplePlan 2 1 120 0 20, samplePlan 3 2 400 0 5,
   samplePlan 4 3 500 0 20, samplePlan 5 2 300 0 20, samplePlan 6 2 300 0 30]

/-- A chainless plan with the single decision `(x, 0)` and `frames` frames whose
board has the cached height `k` in column 1. -/
def templatePlan (x : Nat) (frames : Int) (k : Nat) : RefPlan :=
  { field := CoreField.emptyField.setHeight 1 k, decisions := [⟨x, 0⟩],
    rensaResult := ⟨0, 0, frames, false⟩,
    numChigiri := 0, initiatingFrames := 0, lastDropFrames := 0 }

/-- Templates for the examples: one whose match score is the height of column
1, one that always costs 2. -/
def heightPatterns : List Pattern :=
  [{ Match := fun f => (f.height 1 : Int), name := "H1", score := 10 },
   { Match := fun _ => -2, name := "FEE", score := 0 }]

/-- Plans for the template examples: pattern scores 1, 3, 3, 3 with frames 50,
40, 30, 30, and a rensa plan in between. -/
def templatePlans : List RefPlan :=
  [templatePlan 1 50 3, templatePlan 2 40 5, samplePlan 3 2 300 5 0,
   templatePlan 4 30 5, templatePlan 5 30 5]

/-- An enumerator for the examples: two plans, with chain scores 100 and 361,
from every board. -/
def sampleFuture (_f : CoreField) : List RefPlan :=
  [RefPlan.sample 1 1 100, RefPlan.sample 2 2 361]

/-- A template list for the examples: one template that matches every board
with score 7. -/
def samplePatterns : List Pattern := [{ Match := fun _ => 7, name := "GTR", score := 10 }]

/-- The enumerator that yields no plan from any board. -/
def noFuture (_f : CoreField) : List RefPlan := []

end Peria

end Puyo

namespace Puyo

open PuyoColor

namespace CoreField

/-! ## Helper lemmas: cell and height updates -/

@[simp] theorem color_unsafeSet (f : CoreField) (x y i j : Nat) (c : PuyoColor) :
    (f.unsafeSet x y c).color i j = if i = x ∧ j = y then c else f.color i j := rfl

@[simp] theorem height_unsafeSet (f : CoreField) (x y i : Nat) (c : PuyoColor) :
    (f.unsafeSet x y c).height i = f.height i := rfl

@[simp] theorem color_setHeight (f : CoreField) (x v i j : Nat) :
    (f.setHeight x v).color i j = f.color i j := rfl

@[simp] theorem height_setHeight (f : CoreField) (x v i : Nat) :
    (f.setHeight x v).height i = if i = x then v else f.height i := rfl

theorem color_recalcStep (x : Nat) (f : CoreField) (y i j : Nat) :
    (recalcStep x f y).color i j = f.color i j := by
  unfold recalcStep
  split <;> rfl

theorem height_recalcStep_other (x : Nat) (f : CoreField) (y i : Nat) (hi : i ≠ x) :
    (recalcStep x f y).height i = f.height i := by
  unfold recalcStep
  split
  · simp [hi]
  · rfl

theorem color_recalcFold (x : Nat) (ys : List Nat) (f : CoreField) (i j : Nat) :
    (ys.foldl (recalcStep x) f).color i j = f.color i j := by
  induction ys generalizing f with
  | nil => rfl
  | cons y ys ih => rw [List.foldl_cons, ih, color_recalcStep]

theorem height_recalcFold_other (x : Nat) (ys : List Nat) (f : CoreField) (i : Nat)
    (hi : i ≠ x) : (ys.foldl (recalcStep x) f).height i = f.height i := by
  induction ys generalizing f with
  | nil => rfl
  | cons y ys ih => rw [List.foldl_cons, ih, height_recalcStep_other x f y i hi]

/-- Loop invariant of `recalcHeightOn`: after the rows `1..n` have been scanned,
the cached height is the topmost occupied row among them. -/
theorem recalcFold_invariant (x : Nat) (f : CoreField) (h0 : f.height x = 0) (n : Nat) :
    ((List.range' 1 n).foldl (recalcStep x) f).height x ≤ n ∧
    (((List.range' 1 n).foldl (recalcStep x) f).height x = 0 ∨
      f.color x (((List.range' 1 n).foldl (recalcStep x) f).height x) ≠ EMPTY) ∧
    ∀ y, ((List.range' 1 n).foldl (recalcStep x) f).height x < y → y ≤ n →
      f.color x y = EMPTY := by
  induction n with
  | zero =>
    refine ⟨by simp [h0], Or.inl (by simpa using h0), ?_⟩
    intro y h1 h2
    simp [h0] at h1
    omega
  | succ n ih =>
    rw [List.range'_concat, List.foldl_append]
    simp only [List.foldl_cons, List.foldl_nil, one_mul]
    obtain ⟨ih1, ih2, ih3⟩ := ih
    have hc : ((List.range' 1 n).foldl (recalcStep x) f).color x (1 + n) = f.color x (1 + n) :=
      color_recalcFold x _ f x (1 + n)
    generalize List.foldl (recalcStep x) f (List.range' 1 n) = g at ih1 ih2 ih3 hc ⊢
    unfold recalcStep
    by_cases hne : f.color x (1 + n) = EMPTY
    · rw [hc, if_neg (by simpa using hne)]
      refine ⟨by omega, ih2, ?_⟩
      intro y h1 h2
      by_cases hy : y = 1 + n
      · rw [hy]; exact hne
      · exact ih3 y h1 (by omega)
    · rw [hc, if_pos hne]
      simp only [height_setHeight, if_true]
      refine ⟨by omega, Or.inr hne, ?_⟩
      intro y h1 h2
      omega

theorem color_recalcHeightOn (f : CoreField) (x i j : Nat) :
    (f.recalcHeightOn x).color i j = f.color i j := by
  unfold recalcHeightOn
  rw [color_recalcFold]
  rfl

theorem height_recalcHeightOn_other (f : CoreField) (x i : Nat) (hi : i ≠ x) :
    (f.recalcHeightOn x).height i = f.height i := by
  unfold recalcHeightOn
  rw [height_recalcFold_other x _ _ i hi]
  simp [hi]

theorem recalcHeightOn_topmost (f : CoreField) (x : Nat) :
    IsTopmostOccupied (f.recalcHeightOn x) x ((f.recalcHeightOn x).height x) := by
  have h := recalcFold_invariant x (f.setHeight x 0) (by simp) 13
  unfold IsTopmostOccupied
  unfold recalcHeightOn
  obtain ⟨h1, h2, h3⟩ := h
  refine ⟨h1, ?_, ?_⟩
  · rcases h2 with h2 | h2
    · exact Or.inl h2
    · right
      rw [color_recalcFold]
      exact h2
  · intro y hy1 hy2
    rw [color_recalcFold]
    exact h3 y hy1 hy2

/-- The topmost occupied row of a column is unique. -/
theorem IsTopmostOccupied.unique {f : CoreField} {x h k : Nat}
    (hh : IsTopmostOccupied f x h) (hk : IsTopmostOccupied f x k) : h = k := by
  obtain ⟨h1, h2, h3⟩ := hh
  obtain ⟨k1, k2, k3⟩ := hk
  by_contra hne
  rcases Nat.lt_or_gt_of_ne hne with hlt | hgt
  · rcases k2 with k2 | k2
    · omega
    · exact k2 (h3 k hlt k1)
  · rcases h2 with h2 | h2
    · omega
    · exact h2 (k3 h hgt h1)

theorem color_removeTopPuyoFrom (f : CoreField) (x i j : Nat) :
    (f.removeTopPuyoFrom x).color i j =
      if 0 < f.height x ∧ i = x ∧ j = f.height x then EMPTY else f.color i j := by
  unfold removeTopPuyoFrom
  by_cases h : f.height x > 0
  · rw [if_pos h]
    simp only [color_setHeight, color_unsafeSet]
    by_cases hc : i = x ∧ j = f.heights x
    · rw [if_pos hc, if_pos ⟨h, hc.1, hc.2⟩]
    · rw [if_neg hc, if_neg (fun hh => hc ⟨hh.2.1, hh.2.2⟩)]
  · rw [if_neg h, if_neg (fun hh => h hh.1)]

theorem height_removeTopPuyoFrom (f : CoreField) (x i : Nat) :
    (f.removeTopPuyoFrom x).height i = if i = x then f.height x - 1 else f.height i := by
  unfold removeTopPuyoFrom
  by_cases h : f.height x > 0
  · rw [if_pos h]
    simp only [height_setHeight, height_unsafeSet]
    rfl
  · rw [if_neg h]
    by_cases hi : i = x
    · rw [if_pos hi, hi]; omega
    · rw [if_neg hi]

/-! ## Claims about `core_field.h` -/

/-- C1: for every board and every column x in 1..6, after `recalcHeightOn(x)` the
value `height(x)` is the index of the topmost occupied (non-EMPTY) cell of
column x (rows 1..13), and it is 0 when column x has no occupied cell; the cells
themselves are not touched. -/
theorem recalcHeightOn_height_is_topmost (f : CoreField) (x : Nat)
    (_hx : 1 ≤ x ∧ x ≤ 6) :
    IsTopmostOccupied f x ((f.recalcHeightOn x).height x) ∧
    ((∀ y, 1 ≤ y → y ≤ 13 → f.color x y = EMPTY) → (f.recalcHeightOn x).height x = 0) ∧
    (∀ i j, (f.recalcHeightOn x).color i j = f.color i j) := by
  have ht := recalcHeightOn_topmost f x
  have htf : IsTopmostOccupied f x ((f.recalcHeightOn x).height x) := by
    obtain ⟨h1, h2, h3⟩ := ht
    refine ⟨h1, ?_, ?_⟩
    · rcases h2 with h2 | h2
      · exact Or.inl h2
      · exact Or.inr (by rwa [color_recalcHeightOn] at h2)
    · intro y hy1 hy2
      have := h3 y hy1 hy2
      rwa [color_recalcHeightOn] at this
  refine ⟨htf, ?_, color_recalcHeightOn f x⟩
  intro hall
  obtain ⟨h1, h2, _⟩ := htf
  rcases h2 with h2 | h2
  · exact h2
  · by_contra h0
    exact h2 (hall _ (by omega) h1)

/-- C1 at a concrete board: column 2 holds cells in rows 1 and 3 and a stale
cache 0; the recomputed height is 3. -/
theorem recalcHeightOn_height_is_topmost_witness :
    (staleField.recalcHeightOn 2).height 2 = 3 ∧
    (IsTopmostOccupied staleField 2 ((staleField.recalcHeightOn 2).height 2) ∧
    ((∀ y, 1 ≤ y → y ≤ 13 → staleField.color 2 y = EMPTY) →
      (staleField.recalcHeightOn 2).height 2 = 0) ∧
    (∀ i j, (staleField.recalcHeightOn 2).color i j = staleField.color i j)) :=
  ⟨by decide, recalcHeightOn_height_is_topmost staleField 2 ⟨by decide, by decide⟩⟩

/-- C2: `removeTopPuyoFrom` preserves the board invariant: if column x is
gravity-consistent (cells 1..h occupied, every cell above h empty) and
`height(x) = h`, then after `removeTopPuyoFrom(x)` column x is gravity-consistent
again and `height(x)` is the index of its topmost occupied cell: h-1 when h > 0,
0 when h = 0 (`h - 1` is the truncated subtraction). -/
theorem removeTopPuyoFrom_preserves_invariant (f : CoreField) (x h : Nat)
    (hh : f.height x = h) (hg : GravityConsistent f x h) :
    GravityConsistent (f.removeTopPuyoFrom x) x (h - 1) ∧
    (f.removeTopPuyoFrom x).height x = h - 1 ∧
    (0 < h → (f.removeTopPuyoFrom x).height x + 1 = h) ∧
    (h = 0 → (f.removeTopPuyoFrom x).height x = 0) := by
  obtain ⟨hocc, hemp⟩ := hg
  have hheight : (f.removeTopPuyoFrom x).height x = h - 1 := by
    rw [height_removeTopPuyoFrom, if_pos rfl, hh]
  refine ⟨⟨?_, ?_⟩, hheight, ?_, ?_⟩
  · intro y hy1 hy2
    rw [color_removeTopPuyoFrom, if_neg (by rw [hh]; omega)]
    exact hocc y hy1 (by omega)
  · intro y hy1 hy2
    rw [color_removeTopPuyoFrom]
    split
    · rfl
    · rename_i hn
      by_cases hy : y = h
      · exfalso
        apply hn
        rw [hh]
        exact ⟨by omega, rfl, hy⟩
      · exact hemp y (by omega) hy2
  · intro hpos
    rw [hheight]; omega
  · intro h0
    rw [hheight, h0]

/-- C2 at a concrete board: column 3 holds two cells with height cache 2. -/
theorem removeTopPuyoFrom_preserves_invariant_witness :
    (stackField.height 3 = 2 ∧ GravityConsistent stackField 3 2) ∧
    (GravityConsistent (stackField.removeTopPuyoFrom 3) 3 (2 - 1) ∧
    (stackField.removeTopPuyoFrom 3).height 3 = 2 - 1 ∧
    (0 < 2 → (stackField.removeTopPuyoFrom 3).height 3 + 1 = 2) ∧
    (2 = 0 → (stackField.removeTopPuyoFrom 3).height 3 = 0)) :=
  have hg : GravityConsistent stackField 3 2 := by
    constructor
    · intro y h1 h2
      interval_cases y <;> decide
    · intro y h1 h2
      interval_cases y <;> decide
  ⟨⟨rfl, hg⟩, removeTopPuyoFrom_preserves_invariant stackField 3 2 rfl hg⟩

/-- C3: for every board and column x: if `height(x) = 0` then
`removeTopPuyoFrom(x)` leaves every cell and every column height unchanged; if
`height(x) > 0` it changes only the cell `(x, height(x))`, which becomes EMPTY,
and only the height of column x, which decreases by exactly one. -/
theorem removeTopPuyoFrom_frame (f : CoreField) (x : Nat) :
    (f.height x = 0 →
      (∀ i j, (f.removeTopPuyoFrom x).color i j = f.color i j) ∧
      (∀ i, (f.removeTopPuyoFrom x).height i = f.height i)) ∧
    (0 < f.height x →
      (f.removeTopPuyoFrom x).color x (f.height x) = EMPTY ∧
      (∀ i j, ¬ (i = x ∧ j = f.height x) →
        (f.removeTopPuyoFrom x).color i j = f.color i j) ∧
      (f.removeTopPuyoFrom x).height x + 1 = f.height x ∧
      (∀ i, i ≠ x → (f.removeTopPuyoFrom x).height i = f.height i)) := by
  constructor
  · intro h0
    constructor
    · intro i j
      rw [color_removeTopPuyoFrom, if_neg (by omega)]
    · intro i
      rw [height_removeTopPuyoFrom]
      split
      · rename_i hi
        rw [hi]; omega
      · rfl
  · intro hpos
    refine ⟨?_, ?_, ?_, ?_⟩
    · rw [color_removeTopPuyoFrom, if_pos ⟨hpos, rfl, rfl⟩]
    · intro i j hij
      rw [color_removeTopPuyoFrom, if_neg (fun hh => hij ⟨hh.2.1, hh.2.2⟩)]
    · rw [height_removeTopPuyoFrom, if_pos rfl]; omega
    · intro i hi
      rw [height_removeTopPuyoFrom, if_neg hi]

/-- C4: for every board, column x in 1..6, row y in 1..13 and cell value c,
after `setPuyoAndHeight(x, y, c)`: `color(x, y) = c`, every other cell is
unchanged, every other column height is unchanged, and `height(x)` is the index
of the topmost occupied cell of column x (0 if the column is now empty). -/
theorem setPuyoAndHeight_spec (f : CoreField) (x y : Nat) (c : PuyoColor)
    (_hx : 1 ≤ x ∧ x ≤ 6) (_hy : 1 ≤ y ∧ y ≤ 13) :
    (f.setPuyoAndHeight x y c).color x y = c ∧
    (∀ i j, ¬ (i = x ∧ j = y) → (f.setPuyoAndHeight x y c).color i j = f.color i j) ∧
    (∀ i, i ≠ x → (f.setPuyoAndHeight x y c).height i = f.height i) ∧
    IsTopmostOccupied (f.setPuyoAndHeight x y c) x ((f.setPuyoAndHeight x y c).height x) ∧
    ((∀ j, 1 ≤ j → j ≤ 13 → (f.setPuyoAndHeight x y c).color x j = EMPTY) →
      (f.setPuyoAndHeight x y c).height x = 0) := by
  have ht : IsTopmostOccupied (f.setPuyoAndHeight x y c) x
      ((f.setPuyoAndHeight x y c).height x) := recalcHeightOn_topmost (f.unsafeSet x y c) x
  refine ⟨?_, ?_, ?_, ht, ?_⟩
  · unfold setPuyoAndHeight
    rw [color_recalcHeightOn, color_unsafeSet, if_pos ⟨rfl, rfl⟩]
  · intro i j hij
    unfold setPuyoAndHeight
    rw [color_recalcHeightOn, color_unsafeSet, if_neg hij]
  · intro i hi
    unfold setPuyoAndHeight
    rw [height_recalcHeightOn_other _ x i hi, height_unsafeSet]
  · intro hall
    obtain ⟨h1, h2, _⟩ := ht
    rcases h2 with h2 | h2
    · exact h2
    · by_contra h0
      exact h2 (hall _ (by omega) h1)

/-- C4 at a concrete board: writing EMPTY into the top cell (3, 2) of a
two-cell column gives height 1; the cache is recomputed, not left at 2. -/
theorem setPuyoAndHeight_spec_witness :
    (stackField.setPuyoAndHeight 3 2 EMPTY).height 3 = 1 ∧
    ((stackField.setPuyoAndHeight 3 2 EMPTY).color 3 2 = EMPTY ∧
    (∀ i j, ¬ (i = 3 ∧ j = 2) →
      (stackField.setPuyoAndHeight 3 2 EMPTY).color i j = stackField.color i j) ∧
    (∀ i, i ≠ 3 → (stackField.setPuyoAndHeight 3 2 EMPTY).height i = stackField.height i) ∧
    IsTopmostOccupied (stackField.setPuyoAndHeight 3 2 EMPTY) 3
      ((stackField.setPuyoAndHeight 3 2 EMPTY).height 3) ∧
    ((∀ j, 1 ≤ j → j ≤ 13 → (stackField.setPuyoAndHeight 3 2 EMPTY).color 3 j = EMPTY) →
      (stackField.setPuyoAndHeight 3 2 EMPTY).height 3 = 0)) :=
  ⟨by decide, setPuyoAndHeight_spec stackField 3 2 EMPTY ⟨by decide, by decide⟩
    ⟨by decide, by decide⟩⟩

end CoreField

/-! ## `dropKumipuyo`: placement and failure -/

namespace CoreField

@[simp] theorem color_pushPuyo (f : CoreField) (x i j : Nat) (c : PuyoColor) :
    (f.pushPuyo x c).color i j = if i = x ∧ j = f.height x + 1 then c else f.color i j := rfl

@[simp] theorem height_pushPuyo (f : CoreField) (x i : Nat) (c : PuyoColor) :
    (f.pushPuyo x c).height i = if i = x then f.height x + 1 else f.height i := rfl

/-- The pop undoes the push: `removeTopPuyoFrom` after a push gives back every
cell and every height, provided the cell above the cached height was empty. -/
theorem removeTop_pushPuyo (f : CoreField) (x : Nat) (c : PuyoColor)
    (hfresh : f.color x (f.height x + 1) = EMPTY) :
    (∀ i j, ((f.pushPuyo x c).removeTopPuyoFrom x).color i j = f.color i j) ∧
    (∀ i, ((f.pushPuyo x c).removeTopPuyoFrom x).height i = f.height i) := by
  constructor
  · intro i j
    rw [color_removeTopPuyoFrom]
    simp only [height_pushPuyo, if_true, color_pushPuyo]
    by_cases hij : i = x ∧ j = f.height x + 1
    · rw [if_pos ⟨by omega, hij.1, hij.2⟩, hij.1, hij.2, hfresh]
    · rw [if_neg (fun hh => hij ⟨hh.2.1, hh.2.2⟩), if_neg hij]
  · intro i
    rw [height_removeTopPuyoFrom]
    simp only [height_pushPuyo, if_true]
    by_cases hi : i = x
    · rw [if_pos hi, hi]; omega
    · rw [if_neg hi, if_neg hi]

/-- The call reports failure exactly when the placement has no room. -/
theorem dropKumipuyo_fst (f : CoreField) (d : Decision) (k : Kumipuyo) :
    (f.dropKumipuyo d k).1 = f.hasRoom d := by
  unfold dropKumipuyo
  by_cases h : f.hasRoom d = true
  · rw [if_pos h, h]
  · rw [if_neg h]
    simpa using h

/-- A vertical placement needs two free rows: it has no room in a column whose
cached height is 12, although one cell would fit. -/
theorem hasRoom_vertical (f : CoreField) (x : Nat) :
    f.hasRoom ⟨x, 0⟩ = decide (f.height x + 2 ≤ 13) := by
  unfold hasRoom cellsAdded Decision.axisX Decision.childX
  simp

/-- Successful placements on the empty board: child above the axis, child below
the axis, child to the right of the axis. -/
theorem dropKumipuyo_success_examples :
    ((emptyField.dropKumipuyo ⟨3, 0⟩ ⟨BLUE, YELLOW⟩).1 = true ∧
     (emptyField.dropKumipuyo ⟨3, 0⟩ ⟨BLUE, YELLOW⟩).2.color 3 1 = BLUE ∧
     (emptyField.dropKumipuyo ⟨3, 0⟩ ⟨BLUE, YELLOW⟩).2.color 3 2 = YELLOW ∧
     (emptyField.dropKumipuyo ⟨3, 0⟩ ⟨BLUE, YELLOW⟩).2.height 3 = 2) ∧
    ((emptyField.dropKumipuyo ⟨3, 2⟩ ⟨BLUE, YELLOW⟩).2.color 3 1 = YELLOW ∧
     (emptyField.dropKumipuyo ⟨3, 2⟩ ⟨BLUE, YELLOW⟩).2.color 3 2 = BLUE) ∧
    ((emptyField.dropKumipuyo ⟨3, 1⟩ ⟨BLUE, YELLOW⟩).2.color 3 1 = BLUE ∧
     (emptyField.dropKumipuyo ⟨3, 1⟩ ⟨BLUE, YELLOW⟩).2.color 4 1 = YELLOW ∧
     (emptyField.dropKumipuyo ⟨3, 1⟩ ⟨BLUE, YELLOW⟩).2.height 3 = 1 ∧
     (emptyField.dropKumipuyo ⟨3, 1⟩ ⟨BLUE, YELLOW⟩).2.height 4 = 1) := by
  decide

/-! ## Claims about placement -/

/-- C5: placement failure is atomic and is a result, not an exception: for every
board, decision and piece pair, if `dropKumipuyo` returns failure then the
board afterwards, all cells and all column heights, is identical to the board
before the call, also when the first of the two cells could be placed and only
the second one had no room. -/
theorem dropKumipuyo_failure_atomic (f : CoreField) (d : Decision) (k : Kumipuyo)
    (hfail : (f.dropKumipuyo d k).1 = false) :
    (f.dropKumipuyo d k).2 = f ∧
    (∀ i j, (f.dropKumipuyo d k).2.color i j = f.color i j) ∧
    (∀ i, (f.dropKumipuyo d k).2.height i = f.height i) := by
  have hroom : f.hasRoom d = false := by
    rw [← dropKumipuyo_fst f d k]
    exact hfail
  have heq : (f.dropKumipuyo d k).2 = f := by
    unfold dropKumipuyo
    rw [if_neg (by rw [hroom]; simp)]
  rw [heq]
  exact ⟨rfl, fun _ _ => rfl, fun _ => rfl⟩

/-- C5 at a concrete board: column 3 is filled to row 12, row 13 is empty, so
one cell fits; a vertical placement in column 3 has room for the first cell
only, fails, and leaves the board as it was. -/
theorem dropKumipuyo_failure_atomic_witness :
    (fullField.height 3 + 1 ≤ 13 ∧
     (fullField.dropKumipuyo ⟨3, 0⟩ ⟨BLUE, YELLOW⟩).1 = false) ∧
    ((fullField.dropKumipuyo ⟨3, 0⟩ ⟨BLUE, YELLOW⟩).2 = fullField ∧
     (∀ i j, (fullField.dropKumipuyo ⟨3, 0⟩ ⟨BLUE, YELLOW⟩).2.color i j =
        fullField.color i j) ∧
     (∀ i, (fullField.dropKumipuyo ⟨3, 0⟩ ⟨BLUE, YELLOW⟩).2.height i = fullField.height i)) :=
  ⟨⟨by decide, by decide⟩,
   dropKumipuyo_failure_atomic fullField ⟨3, 0⟩ ⟨BLUE, YELLOW⟩ (by decide)⟩

end CoreField

/-! ## `forceDrop` -/

namespace CoreField

theorem map_getD_range (l : List PuyoColor) (n : Nat) (hl : l.length ≤ n) :
    (List.range' 1 n).map (fun y => l.getD (y - 1) EMPTY) =
      l ++ List.replicate (n - l.length) EMPTY := by
  apply List.ext_getElem
  · simp; omega
  · intro k h1 h2
    simp only [List.getElem_map, List.getElem_range', one_mul]
    have : 1 + k - 1 = k := by omega
    rw [this]
    by_cases hk : k < l.length
    · rw [List.getElem_append_left hk]
      simp [List.getD_eq_getElem?_getD, hk]
    · rw [List.getElem_append_right (by omega)]
      simp [List.getD_eq_getElem?_getD]
      rw [List.getElem?_eq_none (by omega)]
      rfl

theorem filter_append_replicate_EMPTY (l : List PuyoColor) (n : Nat)
    (hl : ∀ c ∈ l, c ≠ EMPTY) :
    (l ++ List.replicate n EMPTY).filter (fun c => decide (c ≠ EMPTY)) = l := by
  rw [List.filter_append]
  have h1 : l.filter (fun c => decide (c ≠ EMPTY)) = l := by
    rw [List.filter_eq_self]
    intro c hc
    simpa using hl c hc
  have h2 : (List.replicate n EMPTY).filter (fun c => decide (c ≠ EMPTY)) = [] := by
    rw [List.filter_eq_nil_iff]
    intro c hc
    simp [List.eq_of_mem_replicate hc]
  rw [h1, h2, List.append_nil]

theorem compacted_length_le (f : CoreField) (x : Nat) : (f.compacted x).length ≤ 13 := by
  unfold compacted
  have h := List.length_filter_le (fun c => decide (c ≠ EMPTY)) (f.column x)
  have h13 : (f.column x).length = 13 := by simp [column]
  omega

theorem compacted_ne_EMPTY (f : CoreField) (x : Nat) : ∀ c ∈ f.compacted x, c ≠ EMPTY := by
  intro c hc
  unfold compacted at hc
  simpa using (List.mem_filter.mp hc).2

theorem occupiedCount_eq (f : CoreField) (x : Nat) :
    f.occupiedCount x = (f.compacted x).length := by
  unfold occupiedCount compacted
  rw [List.countP_eq_length_filter]

theorem compacted_congr (f g : CoreField) (x : Nat) (h : ∀ y, g.color x y = f.color x y) :
    g.compacted x = f.compacted x := by
  unfold compacted column
  rw [List.map_congr_left (fun y _ => h y)]

/-- The column of a gravity-consistent column: its occupied cells, then empty
cells. -/
theorem column_of_gravityConsistent (f : CoreField) (x h : Nat) (h13 : h ≤ 13)
    (hg : GravityConsistent f x h) :
    f.column x = f.compacted x ++ List.replicate (13 - (f.compacted x).length) EMPTY ∧
    (f.compacted x).length = h := by
  obtain ⟨hocc, hemp⟩ := hg
  have hcol : f.column x =
      (List.range' 1 h).map (fun y => f.color x y) ++ List.replicate (13 - h) EMPTY := by
    apply List.ext_getElem
    · simp [column]; omega
    · intro k hk1 hk2
      simp only [column, List.getElem_map, List.getElem_range', one_mul]
      by_cases hk : k < h
      · rw [List.getElem_append_left (by simpa using hk)]
        simp
      · rw [List.getElem_append_right (by simp; omega)]
        simp only [List.getElem_replicate]
        have hlen : (f.column x).length = 13 := by simp [column]
        exact hemp (1 + k) (by omega) (by omega)
  have hfil : f.compacted x = (List.range' 1 h).map (fun y => f.color x y) := by
    unfold compacted
    rw [hcol]
    apply filter_append_replicate_EMPTY
    intro c hc
    rw [List.mem_map] at hc
    obtain ⟨y, hy, rfl⟩ := hc
    rw [List.mem_range'_1] at hy
    exact hocc y hy.1 (by omega)
  have hlen : (f.compacted x).length = h := by
    rw [hfil]; simp
  refine ⟨?_, hlen⟩
  rw [hlen, hfil]
  exact hcol

/-- On a gravity-consistent column the compaction writes back the cells that are
there. -/
theorem getD_compacted_of_gravityConsistent (f : CoreField) (x h : Nat) (h13 : h ≤ 13)
    (hg : GravityConsistent f x h) (j : Nat) (hj1 : 1 ≤ j) (hj2 : j ≤ 13) :
    (f.compacted x).getD (j - 1) EMPTY = f.color x j := by
  obtain ⟨hcol, _⟩ := column_of_gravityConsistent f x h h13 hg
  have hmap := map_getD_range (f.compacted x) 13 (compacted_length_le f x)
  rw [← hcol] at hmap
  have hk : j - 1 < 13 := by omega
  have h1 : ((List.range' 1 13).map (fun y => (f.compacted x).getD (y - 1) EMPTY))[j - 1]?
      = (f.column x)[j - 1]? := by rw [hmap]
  rw [List.getElem?_eq_getElem (by simpa using hk),
    List.getElem?_eq_getElem (by simpa [column] using hk)] at h1
  simp only [column, List.getElem_map, List.getElem_range', one_mul, Option.some.injEq] at h1
  have e : 1 + (j - 1) = j := by omega
  rw [e] at h1
  exact h1

theorem color_forceDropColumn (f : CoreField) (x i j : Nat) :
    (f.forceDropColumn x).color i j =
      if i = x ∧ 1 ≤ j ∧ j ≤ 13 then (f.compacted x).getD (j - 1) EMPTY else f.color i j :=
  rfl

theorem height_forceDropColumn (f : CoreField) (x i : Nat) :
    (f.forceDropColumn x).height i =
      if i = x then (f.compacted x).length else f.height i := rfl

/-- After the work on column `x` its cells are its occupied cells followed by
empty cells. -/
theorem column_forceDropColumn_self (f : CoreField) (x : Nat) :
    (f.forceDropColumn x).column x =
      f.compacted x ++ List.replicate (13 - (f.compacted x).length) EMPTY := by
  rw [← map_getD_range _ 13 (compacted_length_le f x)]
  unfold column
  apply List.map_congr_left
  intro y hy
  rw [List.mem_range'_1] at hy
  rw [color_forceDropColumn, if_pos ⟨rfl, hy.1, by omega⟩]

/-- The work on one column keeps the occupied cells of every column, in order. -/
theorem compacted_forceDropColumn (f : CoreField) (x i : Nat) :
    (f.forceDropColumn x).compacted i = f.compacted i := by
  by_cases hi : i = x
  · rw [hi]
    show ((f.forceDropColumn x).column x).filter _ = _
    rw [column_forceDropColumn_self,
      filter_append_replicate_EMPTY _ _ (compacted_ne_EMPTY f x)]
  · apply compacted_congr
    intro y
    rw [color_forceDropColumn, if_neg (fun h => hi h.1)]

theorem compacted_foldl_forceDropColumn (xs : List Nat) (f : CoreField) (i : Nat) :
    (xs.foldl forceDropColumn f).compacted i = f.compacted i := by
  induction xs generalizing f with
  | nil => rfl
  | cons x xs ih => rw [List.foldl_cons, ih, compacted_forceDropColumn]

theorem color_foldl_forceDropColumn (xs : List Nat) (f : CoreField) (i j : Nat) :
    (xs.foldl forceDropColumn f).color i j =
      if i ∈ xs ∧ 1 ≤ j ∧ j ≤ 13 then (f.compacted i).getD (j - 1) EMPTY
      else f.color i j := by
  induction xs generalizing f with
  | nil => simp
  | cons x xs ih =>
    rw [List.foldl_cons, ih, compacted_forceDropColumn, color_forceDropColumn]
    by_cases hj : 1 ≤ j ∧ j ≤ 13
    · by_cases hxs : i ∈ xs
      · rw [if_pos ⟨hxs, hj⟩, if_pos ⟨List.mem_cons_of_mem _ hxs, hj⟩]
      · rw [if_neg (fun h => hxs h.1)]
        by_cases hx : i = x
        · rw [if_pos ⟨hx, hj⟩, if_pos ⟨by rw [hx]; exact List.mem_cons_self _ _, hj⟩, hx]
        · rw [if_neg (fun h => hx h.1), if_neg]
          rintro ⟨hm, _⟩
          rcases List.mem_cons.mp hm with h | h
          · exact hx h
          · exact hxs h
    · rw [if_neg (fun h => hj h.2), if_neg (fun h => hj h.2), if_neg (fun h => hj h.2)]

theorem height_foldl_forceDropColumn (xs : List Nat) (f : CoreField) (i : Nat) :
    (xs.foldl forceDropColumn f).height i =
      if i ∈ xs then (f.compacted i).length else f.height i := by
  induction xs generalizing f with
  | nil => simp
  | cons x xs ih =>
    rw [List.foldl_cons, ih, compacted_forceDropColumn, height_forceDropColumn]
    by_cases hxs : i ∈ xs
    · rw [if_pos hxs, if_pos (List.mem_cons_of_mem _ hxs)]
    · rw [if_neg hxs]
      by_cases hx : i = x
      · rw [if_pos hx, if_pos (by rw [hx]; exact List.mem_cons_self _ _), hx]
      · rw [if_neg hx, if_neg]
        intro hm
        rcases List.mem_cons.mp hm with h | h
        · exact hx h
        · exact hxs h

theorem mem_columns (i : Nat) : i ∈ List.range' 1 6 ↔ (1 ≤ i ∧ i ≤ 6) := by
  rw [List.mem_range'_1]; omega

/-- The cells after `forceDrop`: in the columns 1..6 the occupied cells of the
column from row 1 upward, empty cells above; everything else as before. -/
theorem color_forceDrop (f : CoreField) (i j : Nat) :
    f.forceDrop.color i j =
      if (1 ≤ i ∧ i ≤ 6) ∧ 1 ≤ j ∧ j ≤ 13 then (f.compacted i).getD (j - 1) EMPTY
      else f.color i j := by
  unfold forceDrop
  rw [color_foldl_forceDropColumn]
  simp only [mem_columns]

/-- The heights after `forceDrop`: the number of occupied cells in the columns
1..6, kept everywhere else. -/
theorem height_forceDrop (f : CoreField) (i : Nat) :
    f.forceDrop.height i =
      if 1 ≤ i ∧ i ≤ 6 then (f.compacted i).length else f.height i := by
  unfold forceDrop
  rw [height_foldl_forceDropColumn]
  simp only [mem_columns]

/-- The drop keeps the occupied cells of every column, in order. -/
theorem compacted_forceDrop (f : CoreField) (i : Nat) :
    f.forceDrop.compacted i = f.compacted i :=
  compacted_foldl_forceDropColumn _ f i

theorem forceDrop_twice (f : CoreField) :
    (∀ i j, f.forceDrop.forceDrop.color i j = f.forceDrop.color i j) ∧
    (∀ i, f.forceDrop.forceDrop.height i = f.forceDrop.height i) := by
  constructor
  · intro i j
    rw [color_forceDrop f.forceDrop, compacted_forceDrop]
    split
    · rename_i h
      rw [color_forceDrop, if_pos h]
    · rfl
  · intro i
    rw [height_forceDrop f.forceDrop, compacted_forceDrop]
    split
    · rename_i h
      rw [height_forceDrop, if_pos h]
    · rfl

theorem forceDrop_gravityConsistent (f : CoreField) (x : Nat) (hx : 1 ≤ x ∧ x ≤ 6) :
    GravityConsistent f.forceDrop x (f.forceDrop.height x) := by
  rw [height_forceDrop, if_pos hx]
  have hlen := compacted_length_le f x
  constructor
  · intro y h1 h2
    rw [color_forceDrop, if_pos ⟨hx, h1, by omega⟩]
    have hk : y - 1 < (f.compacted x).length := by omega
    rw [List.getD_eq_getElem _ _ hk]
    exact compacted_ne_EMPTY f x _ (List.getElem_mem _)
  · intro y h1 h2
    rw [color_forceDrop, if_pos ⟨hx, by omega, h2⟩]
    rw [List.getD_eq_getElem?_getD, List.getElem?_eq_none (by omega)]
    rfl

/-- The drop changes nothing on a board in a gravity-consistent state. -/
theorem forceDrop_of_gravityConsistent (f : CoreField) (hg : GravityConsistentBoard f) :
    (∀ i j, f.forceDrop.color i j = f.color i j) ∧
    (∀ i, f.forceDrop.height i = f.height i) := by
  constructor
  · intro i j
    rw [color_forceDrop]
    split
    · rename_i h
      obtain ⟨hi, hj1, hj2⟩ := h
      obtain ⟨h13, hgc⟩ := hg i hi.1 hi.2
      exact getD_compacted_of_gravityConsistent f i _ h13 hgc j hj1 hj2
    · rfl
  · intro i
    rw [height_forceDrop]
    split
    · rename_i h
      obtain ⟨h13, hgc⟩ := hg i h.1 h.2
      exact (column_of_gravityConsistent f i _ h13 hgc).2
    · rfl

/-- C7: `forceDrop` is idempotent: for every board, applying it twice yields the
same cells and the same column heights as applying it once; and after one
application every column (1..6) is gravity-consistent, with `height(x)` equal to
its number of occupied cells. -/
theorem forceDrop_idempotent (f : CoreField) :
    (∀ i j, f.forceDrop.forceDrop.color i j = f.forceDrop.color i j) ∧
    (∀ i, f.forceDrop.forceDrop.height i = f.forceDrop.height i) ∧
    (∀ x, 1 ≤ x → x ≤ 6 →
      GravityConsistent f.forceDrop x (f.forceDrop.height x) ∧
      f.forceDrop.height x = f.forceDrop.occupiedCount x) := by
  refine ⟨(forceDrop_twice f).1, (forceDrop_twice f).2, ?_⟩
  intro x h1 h2
  refine ⟨forceDrop_gravityConsistent f x ⟨h1, h2⟩, ?_⟩
  rw [occupiedCount_eq, compacted_forceDrop, height_forceDrop, if_pos ⟨h1, h2⟩]

/-- The drop on a board with floating cells: the two cells of column 2 land in
rows 1 and 2, in their order, and the height becomes 2. -/
theorem forceDrop_floatingField :
    floatingField.forceDrop.color 2 1 = RED ∧ floatingField.forceDrop.color 2 2 = BLUE ∧
    floatingField.forceDrop.color 2 5 = EMPTY ∧ floatingField.forceDrop.height 2 = 2 := by
  decide

end CoreField

/-! ## Chain resolution -/

namespace CoreField

theorem eq_of_color_height (f g : CoreField) (hc : ∀ i j, f.color i j = g.color i j)
    (hh : ∀ i, f.height i = g.height i) : f = g := by
  cases f with
  | mk ff fh =>
    cases g with
    | mk gf gh =>
      have h1 : ff = gf := funext (fun i => funext (fun j => hc i j))
      have h2 : fh = gh := funext hh
      rw [h1, h2]

theorem forceDrop_eq_self (f : CoreField) (hgc : GravityConsistentBoard f) :
    f.forceDrop = f :=
  eq_of_color_height _ _ (forceDrop_of_gravityConsistent f hgc).1
    (forceDrop_of_gravityConsistent f hgc).2

theorem mem_allPositions (p : Nat × Nat) :
    p ∈ allPositions ↔ (1 ≤ p.1 ∧ p.1 ≤ 6) ∧ 1 ≤ p.2 ∧ p.2 ≤ 13 := by
  unfold allPositions
  simp only [List.mem_flatMap, List.mem_map, List.mem_range'_1]
  constructor
  · rintro ⟨x, hx, y, hy, rfl⟩
    exact ⟨⟨hx.1, by omega⟩, hy.1, by omega⟩
  · rintro ⟨hx, hy⟩
    exact ⟨p.1, ⟨hx.1, by omega⟩, p.2, ⟨hy.1, by omega⟩, rfl⟩

theorem vanishingColored_eq_nil (f : CoreField) (hno : NoVanishingGroup f) :
    f.vanishingColored = [] := by
  unfold vanishingColored
  rw [List.filter_eq_nil_iff]
  intro p hp
  rw [mem_allPositions] at hp
  intro hcond
  rw [Bool.and_eq_true] at hcond
  have hlt := hno p.1 p.2 hp.1.1 hp.1.2 hp.2.1 hp.2.2 hcond.1
  have hge : 4 ≤ f.connectedPuyoNums p.1 p.2 := of_decide_eq_true hcond.2
  omega

/-- C6: for every board in a gravity-consistent state (every column 1..6
gravity-consistent, its height cache equal to its topmost occupied cell) that
contains no connected same-colour group of size 4 or more, `simulate()` returns
an outcome with 0 chain links and score 0 and leaves the board, cells and
heights, unchanged. -/
theorem simulate_without_group (T : ScoreTables) (f : CoreField)
    (hgc : GravityConsistentBoard f) (hno : NoVanishingGroup f) :
    ∃ r, simulate T f 1 = some r ∧ r.1.chains = 0 ∧ r.1.score = 0 ∧
      (∀ i j, r.2.color i j = f.color i j) ∧ (∀ i, r.2.height i = f.height i) := by
  refine ⟨({ chains := 0, score := 0, frames := 0 }, f), ?_, rfl, rfl,
    fun _ _ => rfl, fun _ => rfl⟩
  unfold simulate
  rw [forceDrop_eq_self f hgc]
  show simulateLoop T (19 + 1) f _ = _
  unfold simulateLoop
  rw [if_pos (vanishingColored_eq_nil f hno)]

set_option maxRecDepth 100000 in
/-- C6 at a concrete board: three RED cells in a row and a BLUE cell on top. -/
theorem simulate_without_group_witness :
    (GravityConsistentBoard settledField ∧ NoVanishingGroup settledField) ∧
    ∃ r, simulate sampleTables settledField 1 = some r ∧ r.1.chains = 0 ∧ r.1.score = 0 ∧
      (∀ i j, r.2.color i j = settledField.color i j) ∧
      (∀ i, r.2.height i = settledField.height i) :=
  have hgc : GravityConsistentBoard settledField := by
    intro x h1 h2
    interval_cases x
    · refine ⟨by decide, ?_⟩
      show GravityConsistent settledField 1 2
      constructor <;> intro y a b <;> interval_cases y <;> decide
    · refine ⟨by decide, ?_⟩
      show GravityConsistent settledField 2 1
      constructor <;> intro y a b <;> interval_cases y <;> decide
    · refine ⟨by decide, ?_⟩
      show GravityConsistent settledField 3 1
      constructor <;> intro y a b <;> interval_cases y <;> decide
    · refine ⟨by decide, ?_⟩
      show GravityConsistent settledField 4 0
      constructor <;> intro y a b <;> interval_cases y <;> decide
    · refine ⟨by decide, ?_⟩
      show GravityConsistent settledField 5 0
      constructor <;> intro y a b <;> interval_cases y <;> decide
    · refine ⟨by decide, ?_⟩
      show GravityConsistent settledField 6 0
      constructor <;> intro y a b <;> interval_cases y <;> decide
  have hno : NoVanishingGroup settledField := by
    intro x y hx1 hx2 hy1 hy2 hc
    interval_cases x <;> interval_cases y <;>
      first
        | (exfalso; revert hc; decide)
        | decide
  ⟨⟨hgc, hno⟩, simulate_without_group sampleTables settledField hgc hno⟩

set_option maxRecDepth 100000 in
/-- The resolver on a board with a group of four: one link, score 40, and the
BLUE cell that sat on the group has fallen to the floor. -/
theorem simulate_fourField :
    (simulate sampleTables fourField 1).map
        (fun r => (r.1, r.2.color 1 1, r.2.color 2 1, r.2.height 1, r.2.height 2)) =
      some ({ chains := 1, score := 40, frames := 30 }, BLUE, EMPTY, 1, 0) := by
  decide

end CoreField

/-! ## Text snapshots -/

namespace CoreField

theorem fromString_of_wellFormed (s : String) (h6 : s.length % 6 = 0) (h78 : s.length ≤ 78)
    (hch : ∀ c ∈ s.data, (toPuyoColor c).isSome = true) :
    fromString s = some ((List.range' 1 6).foldl recalcHeightOn
      { field := snapshotCell s, heights := fun _ => 0 }) := by
  unfold fromString
  rw [if_pos]
  refine ⟨h6, h78, ?_⟩
  rw [List.all_eq_true]
  exact hch

set_option maxRecDepth 100000 in
/-- A blank row on top of a snapshot describes the same cells. -/
theorem snapshotCell_blankRow :
    snapshotCell fulfilledFieldBlankRowText = snapshotCell fulfilledFieldText := by
  funext i j
  unfold snapshotCell
  have h1 : fulfilledFieldBlankRowText.length / 6 = 11 := by decide
  have h2 : fulfilledFieldText.length / 6 = 10 := by decide
  rw [h1, h2]
  by_cases hi : 1 ≤ i ∧ i ≤ 6
  · by_cases hj : 1 ≤ j ∧ j ≤ 11
    · obtain ⟨hi1, hi2⟩ := hi
      obtain ⟨hj1, hj2⟩ := hj
      interval_cases i <;> interval_cases j <;> decide
    · rw [if_neg (fun h => hj ⟨h.2.2.1, h.2.2.2⟩), if_neg (fun h => hj ⟨h.2.2.1, by omega⟩)]
  · rw [if_neg (fun h => hi ⟨h.1, h.2.1⟩), if_neg (fun h => hi ⟨h.1, h.2.1⟩)]

set_option maxRecDepth 100000 in
/-- The snapshot with a blank row on top builds the same board as the snapshot
without it, so no serialiser gives back both texts: a text with a blank first
row is not the canonical text of its board. -/
theorem fromString_blankRow :
    fromString fulfilledFieldBlankRowText = fromString fulfilledFieldText ∧
    ¬ WellFormedSnapshot fulfilledFieldBlankRowText ∧
    ∀ g : CoreField → String,
      ¬ ((fromString fulfilledFieldText).map g = some fulfilledFieldText ∧
         (fromString fulfilledFieldBlankRowText).map g = some fulfilledFieldBlankRowText) := by
  have heq : fromString fulfilledFieldBlankRowText = fromString fulfilledFieldText := by
    rw [fromString_of_wellFormed _ (by decide) (by decide) (by decide),
      fromString_of_wellFormed _ (by decide) (by decide) (by decide), snapshotCell_blankRow]
  refine ⟨heq, ?_, ?_⟩
  · rintro ⟨_, _, _, h⟩
    revert h
    decide
  · rintro g ⟨h1, h2⟩
    rw [heq, h1] at h2
    revert h2
    decide

set_option maxRecDepth 100000 in
/-- The texts of two small boards, evaluated: the empty board has the empty
text; a board with one RED cell in column 2 and a BLUE over a GREEN cell in
column 5 has two rows; a text of the wrong length or with an unknown character
builds no board. -/
theorem toString_examples :
    toString emptyField = "" ∧
    (fromString "    B  R  G ").map toString = some "    B  R  G " ∧
    (fromString "    B  R  G ").map (fun f => (f.height 2, f.height 5, f.color 5 2)) =
      some (1, 2, BLUE) ∧
    (fromString "RGB").isNone = true ∧ (fromString "RGBXYG").isNone = true := by
  refine ⟨by decide, by decide, by decide, by decide, by decide⟩

end CoreField

/-! ## The best-so-far fold -/

section BestFold

variable {α K β : Type} [LinearOrder K] [DecidableRel (fun a b : K => a < b)]

theorem bestFold_nil (key : α → K) (val : α → β) (s : K × β) :
    bestFold key val s [] = s := rfl

theorem bestFold_cons (key : α → K) (val : α → β) (s : K × β) (a : α) (l : List α) :
    bestFold key val s (a :: l) =
      bestFold key val (if s.1 < key a then (key a, val a) else s) l := rfl

/-- Either no element beats the initial key and the fold returns its start
value, or the fold returns the earliest element whose key is the greatest. -/
theorem bestFold_spec (key : α → K) (val : α → β) (l : List α) (s : K × β) :
    (bestFold key val s l = s ∧ ∀ a ∈ l, key a ≤ s.1) ∨
    (∃ l1 a l2, l = l1 ++ a :: l2 ∧ bestFold key val s l = (key a, val a) ∧
      s.1 < key a ∧ (∀ b ∈ l1, key b < key a) ∧ (∀ b ∈ l2, key b ≤ key a)) := by
  induction l generalizing s with
  | nil => exact Or.inl ⟨rfl, by simp⟩
  | cons a l ih =>
    rw [bestFold_cons]
    by_cases hlt : s.1 < key a
    · rw [if_pos hlt]
      rcases ih (key a, val a) with ⟨heq, hall⟩ | ⟨l1, b, l2, hl, heq, hb, h1, h2⟩
      · exact Or.inr ⟨[], a, l, rfl, heq, hlt, by simp, hall⟩
      · refine Or.inr ⟨a :: l1, b, l2, by rw [hl]; rfl, heq, lt_trans hlt hb, ?_, h2⟩
        intro c hc
        rcases List.mem_cons.mp hc with hc | hc
        · rw [hc]; exact hb
        · exact h1 c hc
    · rw [if_neg hlt]
      rcases ih s with ⟨heq, hall⟩ | ⟨l1, b, l2, hl, heq, hb, h1, h2⟩
      · refine Or.inl ⟨heq, ?_⟩
        intro c hc
        rcases List.mem_cons.mp hc with hc | hc
        · rw [hc]; exact not_lt.mp hlt
        · exact hall c hc
      · refine Or.inr ⟨a :: l1, b, l2, by rw [hl]; rfl, heq, hb, ?_, h2⟩
        intro c hc
        rcases List.mem_cons.mp hc with hc | hc
        · rw [hc]; exact lt_of_le_of_lt (not_lt.mp hlt) hb
        · exact h1 c hc

/-- The key the fold returns bounds the initial key and every visited key. -/
theorem bestFold_upper (key : α → K) (val : α → β) (l : List α) (s : K × β) :
    s.1 ≤ (bestFold key val s l).1 ∧ ∀ a ∈ l, key a ≤ (bestFold key val s l).1 := by
  rcases bestFold_spec key val l s with ⟨heq, hall⟩ | ⟨l1, b, l2, hl, heq, hb, h1, h2⟩
  · rw [heq]; exact ⟨le_refl _, hall⟩
  · rw [heq]
    refine ⟨le_of_lt hb, ?_⟩
    intro a ha
    rw [hl] at ha
    rcases List.mem_append.mp ha with ha | ha
    · exact le_of_lt (h1 a ha)
    · rcases List.mem_cons.mp ha with ha | ha
      · rw [ha]
      · exact h2 a ha

/-- The key the fold returns is the running maximum of the keys, started at the
initial key. -/
theorem bestFold_fst (key : α → K) (val : α → β) (l : List α) (s : K × β) :
    (bestFold key val s l).1 = (l.map key).foldl max s.1 := by
  induction l generalizing s with
  | nil => rfl
  | cons a l ih =>
    rw [bestFold_cons, ih, List.map_cons, List.foldl_cons]
    by_cases hlt : s.1 < key a
    · rw [if_pos hlt, max_eq_right (le_of_lt hlt)]
    · rw [if_neg hlt, max_eq_left (not_lt.mp hlt)]

end BestFold

/-- What determines `max(0, max of the list)`: it is not negative, it bounds every
entry, and it is 0 or an entry. -/
theorem maxOr0_eq (l : List Int) (m : Int) (h0 : 0 ≤ m) (hub : ∀ a ∈ l, a ≤ m)
    (hatt : m = 0 ∨ m ∈ l) : maxOr0 l = m := by
  have hf := bestFold_fst (fun a : Int => a) (fun _ => ()) l ((0 : Int), ())
  have hs := bestFold_spec (fun a : Int => a) (fun _ => ()) l ((0 : Int), ())
  have hm : maxOr0 l = (bestFold (fun a : Int => a) (fun _ => ()) ((0 : Int), ()) l).1 := by
    rw [hf]
    unfold maxOr0
    simp
  rw [hm]
  rcases hs with ⟨heq, hall⟩ | ⟨l1, a, l2, hl, heq, ha, _, h2⟩
  · rw [heq]
    rcases hatt with h | h
    · exact h.symm
    · have := hall m h
      simp only at this ⊢
      omega
  · rw [heq]
    have hmem : a ∈ l := by rw [hl]; simp
    have ham := hub a hmem
    have ha0 : (0 : Int) < a := ha
    rcases hatt with h | h
    · simp only
      omega
    · have hma : m ≤ a := by
        have hs2 := (bestFold_upper (fun a : Int => a) (fun _ => ()) l ((0 : Int), ())).2 m h
        rw [heq] at hs2
        exact hs2
      simp only
      omega

namespace MayahAI

/-! ## `MayahAI::thinkPlan` -/

theorem visit_best (eval : RefPlan → EvalResult) (s : ThinkState) (a : RefPlan) :
    ((visit eval s a).bestScore, (visit eval s a).bestPlan) =
      if s.bestScore < (eval a).score then ((eval a).score, a.toPlan)
      else (s.bestScore, s.bestPlan) := by
  unfold visit
  dsimp only
  split_ifs <;> rfl

theorem visit_virtual (eval : RefPlan → EvalResult) (s : ThinkState) (a : RefPlan) :
    ((visit eval s a).bestVirtualRensaScore, ()) =
      if s.bestVirtualRensaScore < (eval a).maxVirtualScore then ((eval a).maxVirtualScore, ())
      else (s.bestVirtualRensaScore, ()) := by
  unfold visit
  dsimp only
  split_ifs <;> rfl

theorem visit_rensa (eval : RefPlan → EvalResult) (s : ThinkState) (a : RefPlan) :
    ((visit eval s a).bestRensaScore, (visit eval s a).bestRensaPlan) =
      if s.bestRensaScore < a.score then (a.score, a.toPlan)
      else (s.bestRensaScore, s.bestRensaPlan) := by
  unfold visit
  dsimp only
  split_ifs <;> rfl

theorem foldl_visit_best (eval : RefPlan → EvalResult) (l : List RefPlan) (s : ThinkState) :
    ((l.foldl (visit eval) s).bestScore, (l.foldl (visit eval) s).bestPlan) =
      bestFold (fun p => (eval p).score) RefPlan.toPlan (s.bestScore, s.bestPlan) l := by
  induction l generalizing s with
  | nil => rfl
  | cons a l ih => rw [List.foldl_cons, ih, bestFold_cons, visit_best]

theorem foldl_visit_virtual (eval : RefPlan → EvalResult) (l : List RefPlan)
    (s : ThinkState) :
    ((l.foldl (visit eval) s).bestVirtualRensaScore, ()) =
      bestFold (fun p => (eval p).maxVirtualScore) (fun _ => ())
        (s.bestVirtualRensaScore, ()) l := by
  induction l generalizing s with
  | nil => rfl
  | cons a l ih => rw [List.foldl_cons, ih, bestFold_cons, visit_virtual]

theorem foldl_visit_rensa (eval : RefPlan → EvalResult) (l : List RefPlan) (s : ThinkState) :
    ((l.foldl (visit eval) s).bestRensaScore, (l.foldl (visit eval) s).bestRensaPlan) =
      bestFold RefPlan.score RefPlan.toPlan (s.bestRensaScore, s.bestRensaPlan) l := by
  induction l generalizing s with
  | nil => rfl
  | cons a l ih => rw [List.foldl_cons, ih, bestFold_cons, visit_rensa]

/-- When no visited chain score is positive and above every visited virtual
score, the final test `bestVirtualRensaScore < bestRensaScore` fails. -/
theorem no_override (eval : RefPlan → EvalResult) (ms mr : Int) (visited : List RefPlan)
    (hov : ∀ p ∈ visited, p.score ≤ 0 ∨ ∃ q ∈ visited, p.score ≤ (eval q).maxVirtualScore) :
    ¬ (thinkState eval ms mr visited).bestVirtualRensaScore <
        (thinkState eval ms mr visited).bestRensaScore := by
  have hv := foldl_visit_virtual eval visited (initState ms mr)
  have hr := foldl_visit_rensa eval visited (initState ms mr)
  have hvu := bestFold_upper (fun p => (eval p).maxVirtualScore) (fun _ => ()) visited
    ((initState ms mr).bestVirtualRensaScore, ())
  rw [← hv] at hvu
  have hrs := bestFold_spec RefPlan.score RefPlan.toPlan visited
    ((initState ms mr).bestRensaScore, (initState ms mr).bestRensaPlan)
  rw [← hr] at hrs
  obtain ⟨hv0, hvall⟩ := hvu
  simp only at hv0 hvall
  unfold thinkState
  rcases hrs with ⟨heq, _⟩ | ⟨l1, a, l2, hl, heq, ha, _, _⟩
  · have h1 : (List.foldl (visit eval) (initState ms mr) visited).bestRensaScore = 0 :=
      congrArg Prod.fst heq
    rw [h1]
    exact not_lt.mpr hv0
  · have h1 : (List.foldl (visit eval) (initState ms mr) visited).bestRensaScore = a.score :=
      congrArg Prod.fst heq
    rw [h1]
    have hmem : a ∈ visited := by rw [hl]; simp
    have ha0 : (0 : Int) < a.score := ha
    rcases hov a hmem with h0 | ⟨q, hq, hle⟩
    · omega
    · exact not_lt.mpr (le_trans hle (hvall q hq))

/-- C9: the claim at a concrete enumeration.  Two plans are visited: the first
has evaluation score 10 and no chain, the second evaluation score 5 and a chain
of score 40, and no virtual chain is seen.  `thinkPlan` returns the second
plan, whose evaluation score is not the greatest; so the returned plan is not
a visited plan of greatest evaluation score. -/
theorem thinkPlan_returns_rensa_plan_not_best_eval :
    [RefPlan.sample 1 0 0, RefPlan.sample 2 1 40] ≠ [] ∧
    thinkPlan sampleEval 0 0 [RefPlan.sample 1 0 0, RefPlan.sample 2 1 40] =
      (RefPlan.sample 2 1 40).toPlan ∧
    ¬ ∃ r ∈ [RefPlan.sample 1 0 0, RefPlan.sample 2 1 40],
        thinkPlan sampleEval 0 0 [RefPlan.sample 1 0 0, RefPlan.sample 2 1 40] = r.toPlan ∧
        ∀ q ∈ [RefPlan.sample 1 0 0, RefPlan.sample 2 1 40],
          (sampleEval q).score ≤ (sampleEval r).score := by
  have hret : thinkPlan sampleEval 0 0 [RefPlan.sample 1 0 0, RefPlan.sample 2 1 40] =
      (RefPlan.sample 2 1 40).toPlan := by
    rfl
  refine ⟨by simp, hret, ?_⟩
  rintro ⟨r, hr, heq, hmax⟩
  rw [hret] at heq
  rcases List.mem_cons.mp hr with hr | hr
  · rw [hr] at heq
    have hd := congrArg Plan.decisions heq
    revert hd
    decide
  · rw [List.mem_singleton] at hr
    have h := hmax (RefPlan.sample 1 0 0) (by simp)
    rw [hr] at h
    revert h
    decide

/-- C9 (amended): for every enumeration in which no visited plan has a chain
score that is positive and greater than every visited `maxVirtualScore`, and in
which some visited plan has an evaluation score above -100000000, the plan
`thinkPlan` returns is a visited plan whose evaluation score is the greatest
among all visited plans. -/
theorem thinkPlan_best_eval_without_override (eval : RefPlan → EvalResult) (ms mr : Int)
    (visited : List RefPlan)
    (hov : ∀ p ∈ visited, p.score ≤ 0 ∨ ∃ q ∈ visited, p.score ≤ (eval q).maxVirtualScore)
    (hlow : ∃ p ∈ visited, (-100000000 : ℚ) < (eval p).score) :
    ∃ r ∈ visited, thinkPlan eval ms mr visited = r.toPlan ∧
      ∀ q ∈ visited, (eval q).score ≤ (eval r).score := by
  have hno := no_override eval ms mr visited hov
  have hb := foldl_visit_best eval visited (initState ms mr)
  have hbs := bestFold_spec (fun p => (eval p).score) RefPlan.toPlan visited
    ((initState ms mr).bestScore, (initState ms mr).bestPlan)
  rw [← hb] at hbs
  have hret : thinkPlan eval ms mr visited = (thinkState eval ms mr visited).bestPlan := by
    unfold thinkPlan
    simp only
    rw [if_neg hno]
  rcases hbs with ⟨_, hall⟩ | ⟨l1, a, l2, hl, heq, _, h1, h2⟩
  · obtain ⟨p, hp, hlt⟩ := hlow
    have := hall p hp
    exact absurd (lt_of_lt_of_le hlt this) (lt_irrefl _)
  · refine ⟨a, by rw [hl]; simp, ?_, ?_⟩
    · rw [hret]
      exact congrArg Prod.snd heq
    · intro q hq
      rw [hl] at hq
      rcases List.mem_append.mp hq with hq | hq
      · exact le_of_lt (h1 q hq)
      · rcases List.mem_cons.mp hq with hq | hq
        · rw [hq]
        · exact h2 q hq

/-- C9 (amended) at a concrete enumeration: two chainless plans valued 5 and 10;
the plan valued 10 is returned. -/
theorem thinkPlan_best_eval_without_override_witness :
    thinkPlan sampleEval 0 0 [RefPlan.sample 2 0 0, RefPlan.sample 1 0 0] =
      (RefPlan.sample 1 0 0).toPlan ∧
    ∃ r ∈ [RefPlan.sample 2 0 0, RefPlan.sample 1 0 0],
      thinkPlan sampleEval 0 0 [RefPlan.sample 2 0 0, RefPlan.sample 1 0 0] = r.toPlan ∧
      ∀ q ∈ [RefPlan.sample 2 0 0, RefPlan.sample 1 0 0],
        (sampleEval q).score ≤ (sampleEval r).score :=
  ⟨rfl,
   thinkPlan_best_eval_without_override sampleEval 0 0
    [RefPlan.sample 2 0 0, RefPlan.sample 1 0 0]
    (by intro p hp; left; revert p; decide)
    ⟨RefPlan.sample 1 0 0, by simp, by decide⟩⟩

/-- When every visited plan is valued below the initial `bestScore`, the
default-constructed plan is returned: a plan that was never visited. -/
theorem thinkPlan_lowEval_default :
    thinkPlan lowEval 0 0 [RefPlan.sample 1 0 0] = Plan.default ∧
    (thinkPlan lowEval 0 0 [RefPlan.sample 1 0 0]).decisions = [] :=
  ⟨rfl, rfl⟩

/-- The final `bestRensaScore` is `R = max(0, max chain score)`. -/
theorem bestRensaScore_eq (eval : RefPlan → EvalResult) (ms mr : Int)
    (visited : List RefPlan) :
    (thinkState eval ms mr visited).bestRensaScore = maxOr0 (visited.map RefPlan.score) := by
  have h := congrArg Prod.fst (foldl_visit_rensa eval visited (initState ms mr))
  simp only at h
  unfold thinkState maxOr0
  rw [h, bestFold_fst]
  rfl

/-- The final `bestVirtualRensaScore` is `V = max(0, max maxVirtualScore)`. -/
theorem bestVirtualRensaScore_eq (eval : RefPlan → EvalResult) (ms mr : Int)
    (visited : List RefPlan) :
    (thinkState eval ms mr visited).bestVirtualRensaScore =
      maxOr0 (visited.map (fun p => (eval p).maxVirtualScore)) := by
  have h := congrArg Prod.fst (foldl_visit_virtual eval visited (initState ms mr))
  simp only at h
  unfold thinkState maxOr0
  rw [h, bestFold_fst]
  rfl

theorem maxOr0_nonneg (l : List Int) : 0 ≤ maxOr0 l := by
  have h := (bestFold_upper (fun a : Int => a) (fun _ => ()) l ((0 : Int), ())).1
  rw [bestFold_fst] at h
  simpa [maxOr0] using h

/-- C11: the exact selection rule of `MayahAI::thinkPlan` over the visited plans,
in order, with `R = max(0, max chain score)` and
`V = max(0, max maxVirtualScore)`.  If `V < R` the plan returned is the earliest
visited plan whose chain score equals `R`; that plan has a positive score and
is not the default-constructed plan.  Otherwise the plan returned is the
earliest visited plan whose evaluation score is the greatest, and it is the
empty default plan when no visited plan has an evaluation score above
-100000000. -/
theorem thinkPlan_selection_rule (eval : RefPlan → EvalResult) (ms mr : Int)
    (visited : List RefPlan) :
    (maxOr0 (visited.map (fun p => (eval p).maxVirtualScore)) <
        maxOr0 (visited.map RefPlan.score) →
      ∃ l1 a l2, visited = l1 ++ a :: l2 ∧
        a.score = maxOr0 (visited.map RefPlan.score) ∧
        (∀ b ∈ l1, b.score ≠ maxOr0 (visited.map RefPlan.score)) ∧
        0 < a.score ∧
        thinkPlan eval ms mr visited = a.toPlan ∧
        thinkPlan eval ms mr visited ≠ Plan.default) ∧
    (¬ maxOr0 (visited.map (fun p => (eval p).maxVirtualScore)) <
        maxOr0 (visited.map RefPlan.score) →
      ((∃ p ∈ visited, (-100000000 : ℚ) < (eval p).score) →
        ∃ l1 a l2, visited = l1 ++ a :: l2 ∧
          (∀ q ∈ visited, (eval q).score ≤ (eval a).score) ∧
          (∀ b ∈ l1, (eval b).score ≠ (eval a).score) ∧
          thinkPlan eval ms mr visited = a.toPlan) ∧
      ((∀ p ∈ visited, (eval p).score ≤ (-100000000 : ℚ)) →
        thinkPlan eval ms mr visited = Plan.default ∧
        (thinkPlan eval ms mr visited).decisions = [])) := by
  have hR := bestRensaScore_eq eval ms mr visited
  have hV := bestVirtualRensaScore_eq eval ms mr visited
  constructor
  · intro hlt
    have hret : thinkPlan eval ms mr visited =
        (thinkState eval ms mr visited).bestRensaPlan := by
      unfold thinkPlan
      simp only
      rw [if_pos (by rw [hR, hV]; exact hlt)]
    have hr := foldl_visit_rensa eval visited (initState ms mr)
    have hrs := bestFold_spec RefPlan.score RefPlan.toPlan visited
      ((initState ms mr).bestRensaScore, (initState ms mr).bestRensaPlan)
    rw [← hr] at hrs
    rcases hrs with ⟨heq, _⟩ | ⟨l1, a, l2, hl, heq, ha, h1, _⟩
    · exfalso
      have h0 : (thinkState eval ms mr visited).bestRensaScore = 0 := congrArg Prod.fst heq
      rw [hR] at h0
      have hVn := maxOr0_nonneg (visited.map (fun p => (eval p).maxVirtualScore))
      omega
    · have hs : (thinkState eval ms mr visited).bestRensaScore = a.score :=
        congrArg Prod.fst heq
      have hp : (thinkState eval ms mr visited).bestRensaPlan = a.toPlan :=
        congrArg Prod.snd heq
      have hpos : (0 : Int) < a.score := ha
      rw [hR] at hs
      refine ⟨l1, a, l2, hl, hs.symm, ?_, hpos, by rw [hret, hp], ?_⟩
      · intro b hb
        rw [hs]
        exact ne_of_lt (h1 b hb)
      · rw [hret, hp]
        intro hdef
        have hsc := congrArg (fun q : Plan => q.rensaResult.score) hdef
        have hsc' : a.score = 0 := hsc
        omega
  · intro hnlt
    have hret : thinkPlan eval ms mr visited = (thinkState eval ms mr visited).bestPlan := by
      unfold thinkPlan
      simp only
      rw [if_neg (by rw [hR, hV]; exact hnlt)]
    have hb := foldl_visit_best eval visited (initState ms mr)
    have hbs := bestFold_spec (fun p => (eval p).score) RefPlan.toPlan visited
      ((initState ms mr).bestScore, (initState ms mr).bestPlan)
    rw [← hb] at hbs
    constructor
    · rintro ⟨p, hp, hlt⟩
      rcases hbs with ⟨_, hall⟩ | ⟨l1, a, l2, hl, heq, _, h1, h2⟩
      · exact absurd (lt_of_lt_of_le hlt (hall p hp)) (lt_irrefl _)
      · refine ⟨l1, a, l2, hl, ?_, fun b hb => ne_of_lt (h1 b hb), ?_⟩
        · intro q hq
          rw [hl] at hq
          rcases List.mem_append.mp hq with hq | hq
          · exact le_of_lt (h1 q hq)
          · rcases List.mem_cons.mp hq with hq | hq
            · rw [hq]
            · exact h2 q hq
        · rw [hret]
          exact congrArg Prod.snd heq
    · intro hall
      rcases hbs with ⟨heq, _⟩ | ⟨l1, a, l2, hl, _, ha, _, _⟩
      · have hp : (thinkState eval ms mr visited).bestPlan = Plan.default :=
          congrArg Prod.snd heq
        rw [hret, hp]
        exact ⟨rfl, rfl⟩
      · exfalso
        have hmem : a ∈ visited := by rw [hl]; simp
        have hle := hall a hmem
        have ha' : (-100000000 : ℚ) < (eval a).score := ha
        exact absurd (lt_of_lt_of_le ha' hle) (lt_irrefl _)

/-- The selection rule at three concrete enumerations: a fired chain of score 40
that no virtual chain matches is returned although its evaluation is lower;
without a chain the earlier of two equally valued plans is returned; and a
single plan valued below -100000000 gives the default plan. -/
theorem thinkPlan_selection_examples :
    thinkPlan sampleEval 0 0 [RefPlan.sample 1 0 0, RefPlan.sample 2 1 40,
        RefPlan.sample 3 1 40] = (RefPlan.sample 2 1 40).toPlan ∧
    thinkPlan sampleEval 0 0 [RefPlan.sample 2 0 0, RefPlan.sample 3 0 0] =
      (RefPlan.sample 2 0 0).toPlan ∧
    thinkPlan lowEval 0 0 [RefPlan.sample 1 0 0] = Plan.default :=
  ⟨rfl, rfl, rfl⟩

end MayahAI

namespace Peria

/-! ## The default search of peria `Ai::think` -/

theorem foldl_EvaluateUsual (future : CoreField → List RefPlan) (d0 : Decision)
    (l : List RefPlan) (s : Int × Decision) :
    l.foldl (EvaluateUsual future d0) s =
      bestFold (usualScore future) (fun p => p.front d0) s l := by
  induction l generalizing s with
  | nil => rfl
  | cons a l ih =>
    rw [List.foldl_cons, ih, bestFold_cons]
    rfl

/-- When no visited plan has an `EvaluateUsual` score greater than 0 the default
search never assigns its decision: it returns the default-constructed
`Decision`, whatever the plans visited. -/
theorem thinkNormal_unassigned (future : CoreField → List RefPlan) (d0 : Decision)
    (visited : List RefPlan) (hall : ∀ p ∈ visited, usualScore future p ≤ 0) :
    thinkNormal future d0 visited = d0 := by
  unfold thinkNormal
  rw [foldl_EvaluateUsual]
  rcases bestFold_spec (usualScore future) (fun p => p.front d0) visited ((0 : Int), d0) with
    ⟨heq, _⟩ | ⟨l1, a, l2, hl, _, hlt, _, _⟩
  · rw [heq]
  · have hmem : a ∈ visited := by rw [hl]; simp
    have := hall a hmem
    simp only at hlt
    omega

/-- C10: the default search of peria `Ai::think` does not return the
best-scoring move at this enumeration.  One plan is visited; it fires no chain
and no chain is reachable from its board, so its `EvaluateUsual` score is 0 and
it is the best-scoring visited plan.  `*best_score` starts at 0 and is beaten
only by a greater score, so the decision is never assigned: the search returns
the default-constructed decision `(0, 0)`, which is the first decision of no
visited plan, instead of the first decision `(3, 0)` of the only visited
plan. -/
theorem thinkNormal_returns_default_decision :
    [RefPlan.sample 3 0 0] ≠ [] ∧
    usualScore noFuture (RefPlan.sample 3 0 0) = 0 ∧
    thinkNormal noFuture ⟨0, 0⟩ [RefPlan.sample 3 0 0] = ⟨0, 0⟩ ∧
    ¬ ∃ p ∈ [RefPlan.sample 3 0 0],
        p.decisions.head? = some (thinkNormal noFuture ⟨0, 0⟩ [RefPlan.sample 3 0 0]) ∧
        ∀ q ∈ [RefPlan.sample 3 0 0], usualScore noFuture q ≤ usualScore noFuture p := by
  refine ⟨by simp, by decide, by decide, ?_⟩
  rintro ⟨p, hp, hd, _⟩
  rw [List.mem_singleton] at hp
  rw [hp] at hd
  revert hd
  decide

/-- Where the default search does assign its decision: for every enumeration
whose plans carry at least one decision and in which some visited plan has an
`EvaluateUsual` score greater than 0, the decision returned is the first
decision of a visited plan whose `EvaluateUsual` score is the greatest among
all visited plans. -/
theorem thinkNormal_best_when_positive (future : CoreField → List RefPlan) (d0 : Decision)
    (visited : List RefPlan)
    (hdec : ∀ p ∈ visited, p.decisions ≠ [])
    (hpos : ∃ p ∈ visited, 0 < usualScore future p) :
    ∃ p ∈ visited, p.decisions.head? = some (thinkNormal future d0 visited) ∧
      ∀ q ∈ visited, usualScore future q ≤ usualScore future p := by
  have hs := bestFold_spec (usualScore future) (fun p => p.front d0) visited ((0 : Int), d0)
  rw [← foldl_EvaluateUsual] at hs
  rcases hs with ⟨_, hall⟩ | ⟨l1, a, l2, hl, heq, _, h1, h2⟩
  · obtain ⟨p, hp, hlt⟩ := hpos
    have := hall p hp
    simp only at this
    omega
  · have hmem : a ∈ visited := by rw [hl]; simp
    refine ⟨a, hmem, ?_, ?_⟩
    · have hd : thinkNormal future d0 visited = a.front d0 := congrArg Prod.snd heq
      rw [hd]
      unfold RefPlan.front
      have hne := hdec a hmem
      cases hdl : a.decisions with
      | nil => exact absurd hdl hne
      | cons d ds => rfl
    · intro q hq
      rw [hl] at hq
      rcases List.mem_append.mp hq with hq | hq
      · exact le_of_lt (h1 q hq)
      · rcases List.mem_cons.mp hq with hq | hq
        · rw [hq]
        · exact h2 q hq

/-- A concrete enumeration with a positive score: a chainless plan (score 0) and
a plan with a two-link chain of score 360; the decision of the second is
returned. -/
theorem thinkNormal_best_when_positive_witness :
    thinkNormal noFuture ⟨0, 0⟩ [RefPlan.sample 3 0 0, RefPlan.sample 4 2 360] = ⟨4, 0⟩ ∧
    ∃ p ∈ [RefPlan.sample 3 0 0, RefPlan.sample 4 2 360],
      p.decisions.head? =
        some (thinkNormal noFuture ⟨0, 0⟩ [RefPlan.sample 3 0 0, RefPlan.sample 4 2 360]) ∧
      ∀ q ∈ [RefPlan.sample 3 0 0, RefPlan.sample 4 2 360],
        usualScore noFuture q ≤ usualScore noFuture p :=
  ⟨by decide,
   thinkNormal_best_when_positive noFuture ⟨0, 0⟩
    [RefPlan.sample 3 0 0, RefPlan.sample 4 2 360]
    (by intro p hp; revert p; decide)
    ⟨RefPlan.sample 4 2 360, by simp, by decide⟩⟩

/-! ## `EvaluateCounter` -/

theorem EvaluateCounter_of_not_eligible (threshold frame : Int) (d0 : Decision)
    (s : Int × Decision) (p : RefPlan) (h : ¬ eligible threshold frame p) :
    EvaluateCounter threshold frame d0 s p = s := by
  unfold EvaluateCounter
  unfold eligible at h
  by_cases h1 : p.isRensaPlan = false
  · rw [if_pos h1]
  · rw [if_neg h1]
    by_cases h2 : framesToInitiate p < frame
    · rw [if_pos h2]
    · rw [if_neg h2]
      by_cases h3 : p.score < threshold
      · rw [if_pos h3]
      · exfalso
        apply h
        exact ⟨by simpa using h1, not_lt.mp h2, not_lt.mp h3⟩

theorem EvaluateCounter_of_eligible (threshold frame : Int) (d0 : Decision)
    (s : Int × Decision) (p : RefPlan) (h : eligible threshold frame p) :
    EvaluateCounter threshold frame d0 s p =
      if s.1 > 0 ∧ s.1 ≤ p.score then s else (p.score, decision p 0 d0) := by
  unfold EvaluateCounter
  obtain ⟨h1, h2, h3⟩ := h
  rw [if_neg (by rw [h1]; simp), if_neg (not_lt.mpr h2), if_neg (not_lt.mpr h3)]

/-- From a positive `*score`: either no eligible plan is below it and nothing
changes, or the outputs are those of the earliest eligible plan of least
score. -/
theorem foldl_EvaluateCounter_pos (threshold frame : Int) (d0 : Decision)
    (l : List RefPlan) (s : Int × Decision) (hs : 0 < s.1)
    (hpos : ∀ p ∈ l, 0 < p.score) :
    (l.foldl (EvaluateCounter threshold frame d0) s = s ∧
      ∀ b ∈ l, eligible threshold frame b → s.1 ≤ b.score) ∨
    (∃ l1 a l2, l = l1 ++ a :: l2 ∧ eligible threshold frame a ∧
      l.foldl (EvaluateCounter threshold frame d0) s = (a.score, decision a 0 d0) ∧
      a.score < s.1 ∧
      (∀ b ∈ l1, eligible threshold frame b → a.score < b.score) ∧
      (∀ b ∈ l2, eligible threshold frame b → a.score ≤ b.score)) := by
  induction l generalizing s with
  | nil => exact Or.inl ⟨rfl, by simp⟩
  | cons p l ih =>
    have hposl : ∀ q ∈ l, 0 < q.score := fun q hq => hpos q (List.mem_cons_of_mem _ hq)
    rw [List.foldl_cons]
    by_cases he : eligible threshold frame p
    · rw [EvaluateCounter_of_eligible threshold frame d0 s p he]
      by_cases hc : s.1 > 0 ∧ s.1 ≤ p.score
      · rw [if_pos hc]
        rcases ih s hs hposl with ⟨heq, hall⟩ | ⟨l1, a, l2, hl, hea, heq, hlt, h1, h2⟩
        · refine Or.inl ⟨heq, ?_⟩
          intro b hb hbe
          rcases List.mem_cons.mp hb with hb | hb
          · rw [hb]; exact hc.2
          · exact hall b hb hbe
        · refine Or.inr ⟨p :: l1, a, l2, by rw [hl]; rfl, hea, heq, hlt, ?_, h2⟩
          intro b hb hbe
          rcases List.mem_cons.mp hb with hb | hb
          · rw [hb]; omega
          · exact h1 b hb hbe
      · rw [if_neg hc]
        have hlt : p.score < s.1 := by
          by_contra hn
          exact hc ⟨hs, not_lt.mp hn⟩
        have hp0 : 0 < p.score := hpos p (List.mem_cons_self _ _)
        rcases ih (p.score, decision p 0 d0) hp0 hposl with
          ⟨heq, hall⟩ | ⟨l1, a, l2, hl, hea, heq, hlt2, h1, h2⟩
        · exact Or.inr ⟨[], p, l, rfl, he, heq, hlt, by simp, hall⟩
        · refine Or.inr ⟨p :: l1, a, l2, by rw [hl]; rfl, hea, heq, ?_, ?_, h2⟩
          · exact lt_trans hlt2 hlt
          · intro b hb hbe
            rcases List.mem_cons.mp hb with hb | hb
            · rw [hb]; exact hlt2
            · exact h1 b hb hbe
    · rw [EvaluateCounter_of_not_eligible threshold frame d0 s p he]
      rcases ih s hs hposl with ⟨heq, hall⟩ | ⟨l1, a, l2, hl, hea, heq, hlt, h1, h2⟩
      · refine Or.inl ⟨heq, ?_⟩
        intro b hb hbe
        rcases List.mem_cons.mp hb with hb | hb
        · rw [hb] at hbe; exact absurd hbe he
        · exact hall b hb hbe
      · refine Or.inr ⟨p :: l1, a, l2, by rw [hl]; rfl, hea, heq, hlt, ?_, h2⟩
        intro b hb hbe
        rcases List.mem_cons.mp hb with hb | hb
        · rw [hb] at hbe; exact absurd hbe he
        · exact h1 b hb hbe

/-- From `*score = 0`: either no plan is eligible and nothing changes, or the
outputs are those of the earliest eligible plan of least score. -/
theorem foldl_EvaluateCounter_zero (threshold frame : Int) (d0 : Decision)
    (l : List RefPlan) (d : Decision) (hpos : ∀ p ∈ l, 0 < p.score) :
    (l.foldl (EvaluateCounter threshold frame d0) (0, d) = (0, d) ∧
      ∀ b ∈ l, ¬ eligible threshold frame b) ∨
    (∃ l1 a l2, l = l1 ++ a :: l2 ∧ eligible threshold frame a ∧
      l.foldl (EvaluateCounter threshold frame d0) (0, d) = (a.score, decision a 0 d0) ∧
      (∀ b ∈ l1, eligible threshold frame b → a.score < b.score) ∧
      (∀ b ∈ l2, eligible threshold frame b → a.score ≤ b.score)) := by
  induction l with
  | nil => exact Or.inl ⟨rfl, by simp⟩
  | cons p l ih =>
    have hposl : ∀ q ∈ l, 0 < q.score := fun q hq => hpos q (List.mem_cons_of_mem _ hq)
    rw [List.foldl_cons]
    by_cases he : eligible threshold frame p
    · rw [EvaluateCounter_of_eligible threshold frame d0 (0, d) p he,
        if_neg (fun h => absurd h.1 (lt_irrefl _))]
      have hp0 : 0 < p.score := hpos p (List.mem_cons_self _ _)
      rcases foldl_EvaluateCounter_pos threshold frame d0 l (p.score, decision p 0 d0)
          hp0 hposl with ⟨heq, hall⟩ | ⟨l1, a, l2, hl, hea, heq, hlt2, h1, h2⟩
      · exact Or.inr ⟨[], p, l, rfl, he, heq, by simp, hall⟩
      · refine Or.inr ⟨p :: l1, a, l2, by rw [hl]; rfl, hea, heq, ?_, h2⟩
        intro b hb hbe
        rcases List.mem_cons.mp hb with hb | hb
        · rw [hb]; exact hlt2
        · exact h1 b hb hbe
    · rw [EvaluateCounter_of_not_eligible threshold frame d0 (0, d) p he]
      rcases ih hposl with ⟨heq, hall⟩ | ⟨l1, a, l2, hl, hea, heq, h1, h2⟩
      · refine Or.inl ⟨heq, ?_⟩
        intro b hb
        rcases List.mem_cons.mp hb with hb | hb
        · rw [hb]; exact he
        · exact hall b hb
      · refine Or.inr ⟨p :: l1, a, l2, by rw [hl]; rfl, hea, heq, ?_, h2⟩
        intro b hb hbe
        rcases List.mem_cons.mp hb with hb | hb
        · rw [hb] at hbe; exact absurd hbe he
        · exact h1 b hb hbe

/-- C12: `EvaluateCounter` selects the smallest sufficient counter-attack.  For
every list of plans whose scores are positive, after `EvaluateCounter` has been
applied to each plan in order from `*score = 0`: when no plan is eligible,
`*score` is 0 (and `*decision` is untouched); otherwise `*score` is the least
`score()` over the eligible plans and `*decision` is `decision(0)`, the first
decision, of the earliest eligible plan attaining it. -/
theorem counterSearch_smallest_sufficient (threshold frame : Int) (d0 : Decision)
    (visited : List RefPlan) (hpos : ∀ p ∈ visited, 0 < p.score) :
    ((∀ b ∈ visited, ¬ eligible threshold frame b) →
      counterSearch threshold frame d0 visited = (0, d0)) ∧
    ((∃ b ∈ visited, eligible threshold frame b) →
      ∃ l1 a l2, visited = l1 ++ a :: l2 ∧ eligible threshold frame a ∧
        (counterSearch threshold frame d0 visited).1 = a.score ∧
        (∀ b ∈ visited, eligible threshold frame b → a.score ≤ b.score) ∧
        (∀ b ∈ l1, eligible threshold frame b → b.score ≠ a.score) ∧
        (counterSearch threshold frame d0 visited).2 = decision a 0 d0 ∧
        (∀ d ds, a.decisions = d :: ds →
          (counterSearch threshold frame d0 visited).2 = d)) := by
  unfold counterSearch
  rcases foldl_EvaluateCounter_zero threshold frame d0 visited d0 hpos with
    ⟨heq, hall⟩ | ⟨l1, a, l2, hl, hea, heq, h1, h2⟩
  · refine ⟨fun _ => heq, ?_⟩
    rintro ⟨b, hb, hbe⟩
    exact absurd hbe (hall b hb)
  · constructor
    · intro hnone
      have hmem : a ∈ visited := by rw [hl]; simp
      exact absurd hea (hnone a hmem)
    · intro _
      refine ⟨l1, a, l2, hl, hea, by rw [heq], ?_, ?_, by rw [heq], ?_⟩
      · intro b hb hbe
        rw [hl] at hb
        rcases List.mem_append.mp hb with hb | hb
        · exact le_of_lt (h1 b hb hbe)
        · rcases List.mem_cons.mp hb with hb | hb
          · rw [hb]
          · exact h2 b hb hbe
      · intro b hb hbe
        exact (ne_of_lt (h1 b hb hbe)).symm
      · intro d ds hd
        rw [heq]
        show decision a 0 d0 = d
        unfold decision
        rw [hd]
        rfl

/-- C12 at a concrete list, threshold 200 and frame 10: a chainless plan, a plan
of score 120 (below the threshold), a plan of score 400 initiated too early,
then eligible plans of scores 500, 300 and 300; the outputs are 300 and the
decision of the first plan of score 300. -/
theorem counterSearch_smallest_sufficient_witness :
    counterSearch 200 10 ⟨0, 0⟩ counterPlans = (300, ⟨5, 0⟩) ∧
    (((∀ b ∈ counterPlans, ¬ eligible 200 10 b) →
      counterSearch 200 10 ⟨0, 0⟩ counterPlans = (0, ⟨0, 0⟩)) ∧
    ((∃ b ∈ counterPlans, eligible 200 10 b) →
      ∃ l1 a l2, counterPlans = l1 ++ a :: l2 ∧ eligible 200 10 a ∧
        (counterSearch 200 10 ⟨0, 0⟩ counterPlans).1 = a.score ∧
        (∀ b ∈ counterPlans, eligible 200 10 b → a.score ≤ b.score) ∧
        (∀ b ∈ l1, eligible 200 10 b → b.score ≠ a.score) ∧
        (counterSearch 200 10 ⟨0, 0⟩ counterPlans).2 = decision a 0 ⟨0, 0⟩ ∧
        (∀ d ds, a.decisions = d :: ds →
          (counterSearch 200 10 ⟨0, 0⟩ counterPlans).2 = d))) :=
  ⟨by decide,
   counterSearch_smallest_sufficient 200 10 ⟨0, 0⟩ counterPlans
    (by intro p hp; revert p; decide)⟩

/-! ## The scoring of `EvaluateUsual` -/

theorem EvaluateFuture_eq_max (b : Int) (p : RefPlan) :
    EvaluateFuture b p = max b p.rensaResult.score := by
  unfold EvaluateFuture
  by_cases h : p.rensaResult.score > b
  · rw [if_pos h, max_eq_right (le_of_lt h)]
  · rw [if_neg h, max_eq_left (not_lt.mp h)]

theorem foldl_EvaluateFuture (l : List RefPlan) (b : Int) :
    l.foldl EvaluateFuture b = l.foldl (fun m r => max m r.rensaResult.score) b := by
  induction l generalizing b with
  | nil => rfl
  | cons p l ih => rw [List.foldl_cons, List.foldl_cons, ih, EvaluateFuture_eq_max]

/-- With chain scores that are not negative, the running maximum `EvaluateFuture`
builds from 0 is the greatest chain score of the enumerated plans (0 if there
is none). -/
theorem foldl_EvaluateFuture_zero (l : List RefPlan)
    (hnonneg : ∀ q ∈ l, 0 ≤ q.rensaResult.score) :
    l.foldl EvaluateFuture 0 = greatestChainScore l := by
  rw [foldl_EvaluateFuture]
  cases l with
  | nil => rfl
  | cons q qs =>
    rw [List.foldl_cons, max_eq_right (hnonneg q (List.mem_cons_self _ _))]
    rfl

/-- Whatever the sign of the chain scores, the score of a non-rensa plan is the
maximum of 0 and the chain scores of the enumerated plans, divided by 2. -/
theorem usualScore_nonRensa (future : CoreField → List RefPlan) (plan : RefPlan)
    (hr : plan.isRensaPlan = false) :
    usualScore future plan =
      Int.tdiv (maxOr0 ((future plan.field).map (fun q => q.rensaResult.score))) 2 := by
  unfold usualScore maxOr0
  rw [if_neg (by rw [hr]; simp), foldl_EvaluateFuture, List.foldl_map]

/-- C13: the scoring function of `EvaluateUsual`.  For a rensa plan the score
used is 99999 when `chains == 1`, the quick flag is set and the chain score is
strictly greater than 840, and the chain score itself otherwise (so it is 99999
exactly in that case, a chain score never being 99999 itself).  For a
non-rensa plan it is the greatest chain score among the plans enumerated from
the plan's resulting field (0 if none; chain scores are not negative), divided
by 2 with truncation.  `*best_score` and `*decision` are replaced exactly when
this score is strictly greater than the current `*best_score`. -/
theorem EvaluateUsual_scoring (future : CoreField → List RefPlan) (d0 : Decision)
    (s : Int × Decision) (plan : RefPlan)
    (hnonneg : ∀ q ∈ future plan.field, 0 ≤ q.rensaResult.score) :
    (plan.isRensaPlan = true →
      (plan.rensaResult.chains = 1 ∧ plan.rensaResult.quick = true ∧
          840 < plan.rensaResult.score → usualScore future plan = 99999) ∧
      (¬ (plan.rensaResult.chains = 1 ∧ plan.rensaResult.quick = true ∧
          840 < plan.rensaResult.score) →
        usualScore future plan = plan.rensaResult.score) ∧
      (plan.rensaResult.score ≠ 99999 →
        (usualScore future plan = 99999 ↔
          plan.rensaResult.chains = 1 ∧ plan.rensaResult.quick = true ∧
            840 < plan.rensaResult.score))) ∧
    (plan.isRensaPlan = false →
      usualScore future plan = Int.tdiv (greatestChainScore (future plan.field)) 2) ∧
    (s.1 < usualScore future plan →
      EvaluateUsual future d0 s plan = (usualScore future plan, plan.front d0)) ∧
    (¬ s.1 < usualScore future plan → EvaluateUsual future d0 s plan = s) := by
  refine ⟨?_, ?_, ?_, ?_⟩
  · intro hr
    have h1 : plan.rensaResult.chains = 1 ∧ plan.rensaResult.quick = true ∧
        840 < plan.rensaResult.score → usualScore future plan = 99999 := by
      intro hc
      unfold usualScore
      rw [if_pos hr, if_pos (by simpa using hc)]
    have h2 : ¬ (plan.rensaResult.chains = 1 ∧ plan.rensaResult.quick = true ∧
        840 < plan.rensaResult.score) →
        usualScore future plan = plan.rensaResult.score := by
      intro hc
      unfold usualScore
      rw [if_pos hr, if_neg (by simpa using hc)]
    refine ⟨h1, h2, ?_⟩
    intro hne
    constructor
    · intro h9
      by_contra hc
      rw [h2 hc] at h9
      exact hne h9
    · exact h1
  · intro hr
    unfold usualScore
    rw [if_neg (by rw [hr]; simp), foldl_EvaluateFuture_zero _ hnonneg]
  · intro h
    unfold EvaluateUsual
    rw [if_pos h]
  · intro h
    unfold EvaluateUsual
    rw [if_neg h]

/-- C13 at concrete plans: a chainless plan from whose board chains of score 100
and 361 are reachable scores 180 and replaces a best score of 0. -/
theorem EvaluateUsual_scoring_witness :
    (usualScore sampleFuture (RefPlan.sample 3 0 0) = 180 ∧
     EvaluateUsual sampleFuture ⟨0, 0⟩ (0, ⟨0, 0⟩) (RefPlan.sample 3 0 0) = (180, ⟨3, 0⟩)) ∧
    (((RefPlan.sample 3 0 0).isRensaPlan = true →
      ((RefPlan.sample 3 0 0).rensaResult.chains = 1 ∧
          (RefPlan.sample 3 0 0).rensaResult.quick = true ∧
          840 < (RefPlan.sample 3 0 0).rensaResult.score →
        usualScore sampleFuture (RefPlan.sample 3 0 0) = 99999) ∧
      (¬ ((RefPlan.sample 3 0 0).rensaResult.chains = 1 ∧
          (RefPlan.sample 3 0 0).rensaResult.quick = true ∧
          840 < (RefPlan.sample 3 0 0).rensaResult.score) →
        usualScore sampleFuture (RefPlan.sample 3 0 0) =
          (RefPlan.sample 3 0 0).rensaResult.score) ∧
      ((RefPlan.sample 3 0 0).rensaResult.score ≠ 99999 →
        (usualScore sampleFuture (RefPlan.sample 3 0 0) = 99999 ↔
          (RefPlan.sample 3 0 0).rensaResult.chains = 1 ∧
            (RefPlan.sample 3 0 0).rensaResult.quick = true ∧
            840 < (RefPlan.sample 3 0 0).rensaResult.score))) ∧
    ((RefPlan.sample 3 0 0).isRensaPlan = false →
      usualScore sampleFuture (RefPlan.sample 3 0 0) =
        Int.tdiv (greatestChainScore (sampleFuture (RefPlan.sample 3 0 0).field)) 2) ∧
    ((0, (⟨0, 0⟩ : Decision)).1 < usualScore sampleFuture (RefPlan.sample 3 0 0) →
      EvaluateUsual sampleFuture ⟨0, 0⟩ (0, ⟨0, 0⟩) (RefPlan.sample 3 0 0) =
        (usualScore sampleFuture (RefPlan.sample 3 0 0),
          (RefPlan.sample 3 0 0).front ⟨0, 0⟩)) ∧
    (¬ (0, (⟨0, 0⟩ : Decision)).1 < usualScore sampleFuture (RefPlan.sample 3 0 0) →
      EvaluateUsual sampleFuture ⟨0, 0⟩ (0, ⟨0, 0⟩) (RefPlan.sample 3 0 0) =
        (0, ⟨0, 0⟩))) :=
  ⟨⟨by decide, by decide⟩,
   EvaluateUsual_scoring sampleFuture ⟨0, 0⟩ (0, ⟨0, 0⟩) (RefPlan.sample 3 0 0)
    (by intro q hq; revert q; decide)⟩

/-- The rensa branch of the scoring at concrete plans: a quick one-link chain of
score 900 counts 99999, a quick one-link chain of score 840 counts 840, and a
two-link chain of score 900 counts 900. -/
theorem usualScore_rensa_examples :
    usualScore noFuture { RefPlan.sample 1 1 900 with rensaResult := ⟨1, 900, 0, true⟩ }
      = 99999 ∧
    usualScore noFuture { RefPlan.sample 1 1 840 with rensaResult := ⟨1, 840, 0, true⟩ }
      = 840 ∧
    usualScore noFuture { RefPlan.sample 1 2 900 with rensaResult := ⟨2, 900, 0, true⟩ }
      = 900 := by
  decide

/-! ## `EvaluatePatterns` -/

theorem EvaluatePatterns_rensa (patterns : List Pattern) (d0 : Decision)
    (s : PatternState) (p : RefPlan) (h : p.isRensaPlan = true) :
    EvaluatePatterns patterns d0 s p = s := by
  unfold EvaluatePatterns
  rw [if_pos h]

theorem EvaluatePatterns_improves (patterns : List Pattern) (d0 : Decision)
    (s : PatternState) (p : RefPlan) (h : p.isRensaPlan = false)
    (hi : improves patterns s p) :
    EvaluatePatterns patterns d0 s p = outputsOf patterns d0 p := by
  unfold EvaluatePatterns
  rw [if_neg (by rw [h]; simp)]
  simp only
  unfold improves at hi
  rw [if_pos hi]
  rfl

theorem EvaluatePatterns_not_improves (patterns : List Pattern) (d0 : Decision)
    (s : PatternState) (p : RefPlan) (hi : ¬ improves patterns s p) :
    EvaluatePatterns patterns d0 s p = s := by
  unfold EvaluatePatterns
  unfold improves at hi
  split
  · rfl
  · simp only
    rw [if_neg hi]

/-- Rensa plans do not take part: the outputs are those of the list without
them. -/
theorem foldl_EvaluatePatterns_filter (patterns : List Pattern) (d0 : Decision)
    (l : List RefPlan) (s : PatternState) :
    l.foldl (EvaluatePatterns patterns d0) s =
      (l.filter (fun p => !p.isRensaPlan)).foldl (EvaluatePatterns patterns d0) s := by
  induction l generalizing s with
  | nil => rfl
  | cons p l ih =>
    rw [List.foldl_cons]
    by_cases h : p.isRensaPlan = true
    · rw [EvaluatePatterns_rensa patterns d0 s p h, List.filter_cons_of_neg (by simp [h])]
      exact ih s
    · rw [List.filter_cons_of_pos (by simpa using h), List.foldl_cons]
      exact ih _

/-- Either no chainless plan passes the test against the start values and
nothing changes, or the outputs are those of the earliest chainless plan that
is greatest in the order "higher pattern score, then fewer frames". -/
theorem foldl_EvaluatePatterns_spec (patterns : List Pattern) (d0 : Decision)
    (l : List RefPlan) (s : PatternState) :
    (l.foldl (EvaluatePatterns patterns d0) s = s ∧
      ∀ b ∈ l, b.isRensaPlan = false → ¬ improves patterns s b) ∨
    (∃ l1 a l2, l = l1 ++ a :: l2 ∧ a.isRensaPlan = false ∧
      l.foldl (EvaluatePatterns patterns d0) s = outputsOf patterns d0 a ∧
      improves patterns s a ∧
      (∀ b ∈ l1, b.isRensaPlan = false → improves patterns (outputsOf patterns d0 b) a) ∧
      (∀ b ∈ l2, b.isRensaPlan = false → ¬ improves patterns (outputsOf patterns d0 a) b)) := by
  induction l generalizing s with
  | nil => exact Or.inl ⟨rfl, by simp⟩
  | cons p l ih =>
    rw [List.foldl_cons]
    by_cases hr : p.isRensaPlan = true
    · rw [EvaluatePatterns_rensa patterns d0 s p hr]
      rcases ih s with ⟨heq, hall⟩ | ⟨l1, a, l2, hl, hna, heq, hia, h1, h2⟩
      · refine Or.inl ⟨heq, ?_⟩
        intro b hb hnb
        rcases List.mem_cons.mp hb with hb | hb
        · rw [hb, hr] at hnb; exact absurd hnb (by simp)
        · exact hall b hb hnb
      · refine Or.inr ⟨p :: l1, a, l2, by rw [hl]; rfl, hna, heq, hia, ?_, h2⟩
        intro b hb hnb
        rcases List.mem_cons.mp hb with hb | hb
        · rw [hb, hr] at hnb; exact absurd hnb (by simp)
        · exact h1 b hb hnb
    · have hnr : p.isRensaPlan = false := by simpa using hr
      by_cases hi : improves patterns s p
      · rw [EvaluatePatterns_improves patterns d0 s p hnr hi]
        rcases ih (outputsOf patterns d0 p) with
          ⟨heq, hall⟩ | ⟨l1, a, l2, hl, hna, heq, hia, h1, h2⟩
        · exact Or.inr ⟨[], p, l, rfl, hnr, heq, hi, by simp, hall⟩
        · refine Or.inr ⟨p :: l1, a, l2, by rw [hl]; rfl, hna, heq, ?_, ?_, h2⟩
          · unfold improves outputsOf at *
            simp only at hia
            omega
          · intro b hb hnb
            rcases List.mem_cons.mp hb with hb | hb
            · rw [hb]; exact hia
            · exact h1 b hb hnb
      · rw [EvaluatePatterns_not_improves patterns d0 s p hi]
        rcases ih s with ⟨heq, hall⟩ | ⟨l1, a, l2, hl, hna, heq, hia, h1, h2⟩
        · refine Or.inl ⟨heq, ?_⟩
          intro b hb hnb
          rcases List.mem_cons.mp hb with hb | hb
          · rw [hb]; exact hi
          · exact hall b hb hnb
        · refine Or.inr ⟨p :: l1, a, l2, by rw [hl]; rfl, hna, heq, hia, ?_, h2⟩
          intro b hb hnb
          rcases List.mem_cons.mp hb with hb | hb
          · rw [hb]
            unfold improves outputsOf at *
            simp only
            omega
          · exact h1 b hb hnb

/-- C14: `EvaluatePatterns` never lets a plan that vanishes puyos influence the
template choice, and otherwise selects lexicographically.  For every list of
plans whose frames are below 10^8, after `EvaluatePatterns` has been applied to
each in order from `(*best_score, *frames) = (0, 10^8)`: rensa plans have
changed nothing; `*best_score` is the maximum of 0 and the pattern scores of
the non-rensa plans; when no non-rensa plan has a pattern score `>= 0` all
outputs keep their initial values; otherwise `*frames` is the least frames
among the non-rensa plans attaining `*best_score` and `*decision` (with
`*best_name`) is `decision(0)` of the earliest such plan. -/
theorem patternSearch_lexicographic (patterns : List Pattern) (d0 : Decision)
    (visited : List RefPlan) (hfr : ∀ p ∈ visited, p.rensaResult.frames < 100000000) :
    (∀ s p, p.isRensaPlan = true → EvaluatePatterns patterns d0 s p = s) ∧
    patternSearch patterns d0 visited =
      patternSearch patterns d0 (visited.filter (fun p => !p.isRensaPlan)) ∧
    (patternSearch patterns d0 visited).best_score =
      maxOr0 ((visited.filter (fun p => !p.isRensaPlan)).map
        (fun p => (PatternMatch patterns p).1)) ∧
    ((∀ b ∈ visited, b.isRensaPlan = false → (PatternMatch patterns b).1 < 0) →
      patternSearch patterns d0 visited =
        { best_score := 0, best_name := "", frames := 100000000, decision := d0 }) ∧
    ((∃ b ∈ visited, b.isRensaPlan = false ∧ 0 ≤ (PatternMatch patterns b).1) →
      ∃ l1 a l2, visited = l1 ++ a :: l2 ∧ a.isRensaPlan = false ∧
        (PatternMatch patterns a).1 = (patternSearch patterns d0 visited).best_score ∧
        (patternSearch patterns d0 visited).frames = a.rensaResult.frames ∧
        (∀ b ∈ visited, b.isRensaPlan = false →
          (PatternMatch patterns b).1 = (patternSearch patterns d0 visited).best_score →
          a.rensaResult.frames ≤ b.rensaResult.frames) ∧
        (∀ b ∈ l1, b.isRensaPlan = false →
          ¬ ((PatternMatch patterns b).1 = (patternSearch patterns d0 visited).best_score ∧
             b.rensaResult.frames = a.rensaResult.frames)) ∧
        (patternSearch patterns d0 visited).decision = decision a 0 d0 ∧
        (∀ d ds, a.decisions = d :: ds → (patternSearch patterns d0 visited).decision = d) ∧
        (patternSearch patterns d0 visited).best_name = (PatternMatch patterns a).2) := by
  have hspec := foldl_EvaluatePatterns_spec patterns d0 visited
    { best_score := 0, best_name := "", frames := 100000000, decision := d0 }
  have hmemf : ∀ x, x ∈ (visited.filter (fun p => !p.isRensaPlan)).map
      (fun p => (PatternMatch patterns p).1) ↔
      ∃ b ∈ visited, b.isRensaPlan = false ∧ (PatternMatch patterns b).1 = x := by
    intro x
    simp only [List.mem_map, List.mem_filter, Bool.not_eq_true']
    constructor
    · rintro ⟨b, ⟨hb, hnb⟩, hx⟩
      exact ⟨b, hb, hnb, hx⟩
    · rintro ⟨b, hb, hnb, hx⟩
      exact ⟨b, ⟨hb, hnb⟩, hx⟩
  refine ⟨fun s p h => EvaluatePatterns_rensa patterns d0 s p h,
    foldl_EvaluatePatterns_filter patterns d0 visited _, ?_⟩
  unfold patternSearch
  rcases hspec with ⟨heq, hall⟩ | ⟨l1, a, l2, hl, hna, heq, hia, h1, h2⟩
  · have hneg : ∀ b ∈ visited, b.isRensaPlan = false → (PatternMatch patterns b).1 < 0 := by
      intro b hb hnb
      have h := hall b hb hnb
      have hf := hfr b hb
      unfold improves at h
      simp only at h
      omega
    rw [heq]
    refine ⟨?_, fun _ => rfl, ?_⟩
    · symm
      apply maxOr0_eq _ 0 (le_refl _)
      · intro x hx
        obtain ⟨b, hb, hnb, hxb⟩ := (hmemf x).mp hx
        have := hneg b hb hnb
        omega
      · exact Or.inl rfl
    · rintro ⟨b, hb, hnb, h0⟩
      have := hneg b hb hnb
      omega
  · have hmem : a ∈ visited := by rw [hl]; simp
    have ha0 : 0 ≤ (PatternMatch patterns a).1 := by
      unfold improves at hia
      simp only at hia
      omega
    have hle : ∀ b ∈ visited, b.isRensaPlan = false →
        (PatternMatch patterns b).1 ≤ (PatternMatch patterns a).1 ∧
        ((PatternMatch patterns b).1 = (PatternMatch patterns a).1 →
          a.rensaResult.frames ≤ b.rensaResult.frames) := by
      intro b hb hnb
      rw [hl] at hb
      rcases List.mem_append.mp hb with hb | hb
      · have h := h1 b hb hnb
        unfold improves outputsOf at h
        simp only at h
        omega
      · rcases List.mem_cons.mp hb with hb | hb
        · rw [hb]
          exact ⟨le_refl _, fun _ => le_refl _⟩
        · have h := h2 b hb hnb
          unfold improves outputsOf at h
          simp only at h
          omega
    rw [heq]
    refine ⟨?_, ?_, ?_⟩
    · symm
      apply maxOr0_eq _ _ ha0
      · intro x hx
        obtain ⟨b, hb, hnb, hxb⟩ := (hmemf x).mp hx
        rw [← hxb]
        exact (hle b hb hnb).1
      · exact Or.inr ((hmemf _).mpr ⟨a, hmem, hna, rfl⟩)
    · intro hneg
      have := hneg a hmem hna
      omega
    · intro _
      refine ⟨l1, a, l2, hl, hna, rfl, rfl, ?_, ?_, rfl, ?_, rfl⟩
      · intro b hb hnb hsc
        exact (hle b hb hnb).2 hsc
      · intro b hb hnb hc
        have h := h1 b hb hnb
        unfold improves outputsOf at h
        simp only at h
        have hc1 : (PatternMatch patterns b).1 = (PatternMatch patterns a).1 := hc.1
        have hc2 := hc.2
        omega
      · intro d ds hd
        show decision a 0 d0 = d
        unfold decision
        rw [hd]
        rfl

/-- C14 at a concrete list: chainless plans with pattern scores 1, 3, 3, 3 and
frames 50, 40, 30, 30 and, in between, a rensa plan with 5 frames; the outputs
are score 3, 30 frames and the decision of the first plan of score 3 with 30
frames. -/
theorem patternSearch_lexicographic_witness :
    ((patternSearch heightPatterns ⟨0, 0⟩ templatePlans).best_score = 3 ∧
     (patternSearch heightPatterns ⟨0, 0⟩ templatePlans).frames = 30 ∧
     (patternSearch heightPatterns ⟨0, 0⟩ templatePlans).decision = ⟨4, 0⟩) ∧
    ((∀ s p, p.isRensaPlan = true → EvaluatePatterns heightPatterns ⟨0, 0⟩ s p = s) ∧
    patternSearch heightPatterns ⟨0, 0⟩ templatePlans =
      patternSearch heightPatterns ⟨0, 0⟩ (templatePlans.filter (fun p => !p.isRensaPlan)) ∧
    (patternSearch heightPatterns ⟨0, 0⟩ templatePlans).best_score =
      maxOr0 ((templatePlans.filter (fun p => !p.isRensaPlan)).map
        (fun p => (PatternMatch heightPatterns p).1)) ∧
    ((∀ b ∈ templatePlans, b.isRensaPlan = false → (PatternMatch heightPatterns b).1 < 0) →
      patternSearch heightPatterns ⟨0, 0⟩ templatePlans =
        { best_score := 0, best_name := "", frames := 100000000, decision := ⟨0, 0⟩ }) ∧
    ((∃ b ∈ templatePlans, b.isRensaPlan = false ∧ 0 ≤ (PatternMatch heightPatterns b).1) →
      ∃ l1 a l2, templatePlans = l1 ++ a :: l2 ∧ a.isRensaPlan = false ∧
        (PatternMatch heightPatterns a).1 =
          (patternSearch heightPatterns ⟨0, 0⟩ templatePlans).best_score ∧
        (patternSearch heightPatterns ⟨0, 0⟩ templatePlans).frames = a.rensaResult.frames ∧
        (∀ b ∈ templatePlans, b.isRensaPlan = false →
          (PatternMatch heightPatterns b).1 =
            (patternSearch heightPatterns ⟨0, 0⟩ templatePlans).best_score →
          a.rensaResult.frames ≤ b.rensaResult.frames) ∧
        (∀ b ∈ l1, b.isRensaPlan = false →
          ¬ ((PatternMatch heightPatterns b).1 =
              (patternSearch heightPatterns ⟨0, 0⟩ templatePlans).best_score ∧
             b.rensaResult.frames = a.rensaResult.frames)) ∧
        (patternSearch heightPatterns ⟨0, 0⟩ templatePlans).decision =
          decision a 0 ⟨0, 0⟩ ∧
        (∀ d ds, a.decisions = d :: ds →
          (patternSearch heightPatterns ⟨0, 0⟩ templatePlans).decision = d) ∧
        (patternSearch heightPatterns ⟨0, 0⟩ templatePlans).best_name =
          (PatternMatch heightPatterns a).2)) :=
  ⟨⟨by decide, by decide, by decide⟩,
   patternSearch_lexicographic heightPatterns ⟨0, 0⟩ templatePlans
    (by intro p hp; revert p; decide)⟩

end Peria

end Puyo
